import Mathlib

/-!
Verification development for the LINKCATCHER media-acquisition pipeline.

The TypeScript sources are shallowly embedded as Lean definitions:
pure helpers become Lean functions, async/throwing code returns `Except`,
and effectful layers (network, persistence, filesystem) are modelled as
explicit environments plus event traces.  Node/Web builtins used by the
code (`net.isIP`, `dns.lookup`, WHATWG `URL` resolution, `fetch`) are
supplied by those environments; everything written by the repository
itself is translated line by line from the sources.
-/

namespace LinkCatcher

/-! ## JavaScript string primitives used by the sources -/

/-- Embedding of JS `String.prototype.toLowerCase` restricted to the ASCII
range (`Char.toLower` lowers exactly `A`-`Z`, matching what the sources
need for hostnames and playlist tags). -/
def jsToLower (s : String) : String := ⟨s.data.map Char.toLower⟩

/-- Embedding of JS `String.prototype.startsWith`. -/
def jsStartsWith (s pre : String) : Bool := pre.data.isPrefixOf s.data

/-- Embedding of JS `String.prototype.endsWith`. -/
def jsEndsWith (s suf : String) : Bool := suf.data.isSuffixOf s.data

/-- Character-level splitter behind `jsSplitDot` (structural recursion, so
that proofs can evaluate it). -/
def splitOnCharAux (sep : Char) : List Char → List Char → List (List Char)
  | [], acc => [acc.reverse]
  | c :: rest, acc =>
    if c = sep then acc.reverse :: splitOnCharAux sep rest []
    else splitOnCharAux sep rest (c :: acc)

/-- Embedding of JS `String.prototype.split('.')` (note `"".split('.')`
is `[""]`, and separators at the ends produce empty parts). -/
def jsSplitDot (s : String) : List String :=
  (splitOnCharAux '.' s.data []).map (fun l => ⟨l⟩)

/-- Value of a list of decimal digit characters, most significant first.
Leading zeros are ignored, exactly as in positional notation. -/
def digitsVal (l : List Char) : Nat := l.foldl (fun a c => a * 10 + (c.toNat - 48)) 0

/-- Embedding of JS `Number.parseInt(value, 10)`: skip leading whitespace,
read an optional sign and then the longest prefix of decimal digits;
`none` models `NaN` (no digits at all).  Trailing garbage is ignored. -/
def parseIntJS (s : String) : Option Int :=
  let cs := s.data.dropWhile Char.isWhitespace
  let signed : Int × List Char :=
    match cs with
    | '-' :: rest => (-1, rest)
    | '+' :: rest => (1, rest)
    | _ => (1, cs)
  let digits := signed.2.takeWhile Char.isDigit
  if digits.isEmpty then none
  else some (signed.1 * (digitsVal digits : Nat))

/-! ## `src/security.ts` — private-address classification -/

/-- One octet of a dotted quad after `Number.parseInt`: `NaN`, negative or
above 255 makes it bad (from the `parts.some(...)` predicate). -/
def isBadIpPart (p : Option Int) : Bool :=
  match p with
  | none => true
  | some n => n < 0 || n > 255

/-- Embedding of `isPrivateIpv4` (security.ts:16-33).  Fail-closed: an
input that does not split into four in-range octets is reported private. -/
def isPrivateIpv4 (ip : String) : Bool :=
  let parts := (jsSplitDot ip).map parseIntJS
  if parts.length ≠ 4 || parts.any isBadIpPart then true
  else
    match parts with
    | [some a, some b, some _, some _] =>
      if a = 10 || a = 127 || a = 0 then true
      else if a = 169 && b = 254 then true
      else if a = 172 && 16 ≤ b && b ≤ 31 then true
      else if a = 192 && b = 168 then true
      else if a = 100 && 64 ≤ b && b ≤ 127 then true
      else if a = 198 && (b = 18 || b = 19) then true
      else if 224 ≤ a then true
      else false
    | _ => true

/-- Embedding of `isPrivateIpv6` (security.ts:35-50). -/
def isPrivateIpv6 (ip : String) : Bool :=
  let lower := jsToLower ip
  if lower = "::1" || lower = "::" then true
  else if jsStartsWith lower "fc" || jsStartsWith lower "fd" then true
  else if jsStartsWith lower "fe8" || jsStartsWith lower "fe9" ||
      jsStartsWith lower "fea" || jsStartsWith lower "feb" then true
  else if jsStartsWith lower "::ffff:" then
    isPrivateIpv4 ⟨lower.data.drop 7⟩
  else false

/-- Embedding of `isPrivateIp` (security.ts:52-61), parameterised by the
Node builtin `net.isIP` (0 = not an IP literal, 4 / 6 = address family). -/
def isPrivateIp (netIsIP : String → Nat) (ip : String) : Bool :=
  if netIsIP ip = 4 then isPrivateIpv4 ip
  else if netIsIP ip = 6 then isPrivateIpv6 ip
  else true

/-! ## `src/security.ts` — assertSafeUrl and fetchWithRedirects -/

deriving instance DecidableEq for Except

/-- The fields of a parsed WHATWG `URL` object that the fetch layer reads. -/
structure JsUrl where
  protocol : String
  hostname : String
  username : String
  password : String
  pathname : String
  href : String
  deriving DecidableEq, Repr

/-- Environment supplying the Node builtins `net.isIP` and `dns.lookup`
(`none` models a lookup that throws). -/
structure NetEnv where
  netIsIP : String → Nat
  dnsLookup : String → Option (List String)

/-- Embedding of `assertSafeUrl` (security.ts:88-123); the `Except` error
carries the `UserInputError` message. -/
def assertSafeUrl (env : NetEnv) (u : JsUrl) : Except String Unit :=
  if ¬ (u.protocol = "http:" ∨ u.protocol = "https:") then
    .error "Допускаются только URL с протоколами http(s)."
  else
    let hostname := jsToLower u.hostname
    if hostname = "localhost" || jsEndsWith hostname ".localhost" ||
        jsEndsWith hostname ".local" then
      .error "URL из локальной или приватной сети запрещены."
    else if env.netIsIP hostname ≠ 0 then
      if isPrivateIp env.netIsIP hostname then
        .error "URL из локальной или приватной сети заблокированы."
      else .ok ()
    else
      match env.dnsLookup hostname with
      | none => .error "Не удалось разрешить имя хоста."
      | some records =>
        if records.length = 0 then .error "Не удалось разрешить имя хоста."
        else if records.any (fun r => isPrivateIp env.netIsIP r) then
          .error "Назначения в локальной или приватной сети заблокированы."
        else .ok ()

/-- Embedding of `isRedirectStatus` (security.ts:125-127). -/
def isRedirectStatus (status : Nat) : Bool := 300 ≤ status && status < 400

/-- The parts of a `fetch` response that `fetchWithRedirects` inspects. -/
structure FetchResponse where
  status : Nat
  location : Option String
  deriving DecidableEq, Repr

/-- Environment for the fetch layer: the safety builtins, the network
(`fetch`) and WHATWG relative-URL resolution (`new URL(location, current)`). -/
structure FetchEnv where
  net : NetEnv
  fetch : JsUrl → FetchResponse
  resolveUrl : String → JsUrl → JsUrl

/-- Terminal outcome of `fetchWithRedirects`. -/
inductive FetchOutcome where
  | success (resp : FetchResponse) (finalUrl : JsUrl)
  | userInputError (msg : String)
  | missingLocation
  | tooManyRedirects
  deriving DecidableEq, Repr

/-- The redirect loop of `fetchWithRedirects` (security.ts:151-174).  The
fuel counts the remaining iterations of `for (hop = 0; hop <= maxRedirects)`;
the returned list records every URL an HTTP request was issued to, in
order. -/
def fetchGo (env : FetchEnv) : Nat → JsUrl → FetchOutcome × List JsUrl
  | 0, _ => (.tooManyRedirects, [])
  | fuel + 1, current =>
    match assertSafeUrl env.net current with
    | .error msg => (.userInputError msg, [])
    | .ok _ =>
      let response := env.fetch current
      if ¬ isRedirectStatus response.status then
        (.success response current, [current])
      else
        match response.location with
        | none => (.missingLocation, [current])
        | some location =>
          let next := fetchGo env fuel (env.resolveUrl location current)
          (next.1, current :: next.2)

/-- Embedding of `fetchWithRedirects` (security.ts:144-175): at most
`maxRedirects + 1` requests are attempted. -/
def fetchWithRedirects (env : FetchEnv) (maxRedirects : Nat) (url : JsUrl) :
    FetchOutcome × List JsUrl :=
  fetchGo env (maxRedirects + 1) url

/-- The URL one redirect hop after `u`: the response's `Location` header
resolved against `u` (identity when the header is absent). -/
def chainStep (env : FetchEnv) (u : JsUrl) : JsUrl :=
  match (env.fetch u).location with
  | some location => env.resolveUrl location u
  | none => u

/-- The URL reached after `k` redirect hops from `u` (the mathematical
redirect chain determined by the environment). -/
def chainUrl (env : FetchEnv) (u : JsUrl) : Nat → JsUrl
  | 0 => u
  | k + 1 => chainStep env (chainUrl env u k)

/-! ## Concrete environments used to instantiate the fetch-layer theorems -/

/-- A public URL whose hostname resolves to a public address. -/
def wSafeUrl : JsUrl :=
  { protocol := "https:", hostname := "example.com", username := "", password := ""
    pathname := "/", href := "https://example.com/" }

/-- A URL whose hostname is a literal loopback-range IPv4 address. -/
def wBadIpUrl : JsUrl :=
  { protocol := "http:", hostname := "10.0.0.1", username := "", password := ""
    pathname := "/", href := "http://10.0.0.1/" }

/-- Concrete `net.isIP` / `dns.lookup`: the two dotted quads are IPv4
literals, everything else is a hostname resolving to a public address. -/
def wNet : NetEnv :=
  { netIsIP := fun s => if s = "10.0.0.1" then 4 else if s = "93.184.216.34" then 4 else 0
    dnsLookup := fun _ => some ["93.184.216.34"] }

/-- Concrete fetch environment in which every response is a `302` redirect
whose `Location` resolves back to the safe URL. -/
def wFetchEnv : FetchEnv :=
  { net := wNet
    fetch := fun _ => { status := 302, location := some "https://example.com/" }
    resolveUrl := fun _ _ => wSafeUrl }

/-! ## `src/security.ts` — mergeWithTimeoutSignal -/

/-- The two primitive abort causes relevant to one request attempt: the
externally supplied cancellation signal firing, and the per-attempt
timeout elapsing. -/
inductive SigEvent where
  | external
  | timeout
  deriving DecidableEq, Repr

/-- An abort signal, modelled by which primitive firings abort it. -/
def AbortSig : Type := SigEvent → Bool

/-- `AbortSignal.timeout(REQUEST_TIMEOUT_MS)`: aborted exactly when the
timeout elapses. -/
def timeoutSignal : AbortSig := fun e => decide (e = SigEvent.timeout)

/-- Web-platform semantics of `AbortSignal.any`: the composite signal is
aborted as soon as any input signal is. -/
def abortSignalAnySem (signals : List AbortSig) : AbortSig :=
  fun e => signals.any (fun s => s e)

/-- A caller-supplied cancellation signal that fires only on external
cancellation. -/
def externalOnlySignal : AbortSig := fun e => decide (e = SigEvent.external)

/-- Embedding of `mergeWithTimeoutSignal` (security.ts:129-142).  `hasAny`
records whether the runtime provides `AbortSignal.any`; when it does not
and an external signal was supplied, the code returns the external signal
alone. -/
def mergeWithTimeoutSignal (hasAny : Bool) (signal : Option AbortSig) : AbortSig :=
  match signal with
  | none => timeoutSignal
  | some s => if hasAny then abortSignalAnySem [s, timeoutSignal] else s

/-! ## `src/downloader.ts` — HLS playlist parsing -/

/-- Character-level splitter for JS `split(/\r?\n/)`: a separator is
either `\r\n` or a lone `\n`; a lone `\r` is kept in its line. -/
def splitLinesAux : List Char → List Char → List (List Char)
  | [], acc => [acc.reverse]
  | '\r' :: '\n' :: rest, acc => acc.reverse :: splitLinesAux rest []
  | '\n' :: rest, acc => acc.reverse :: splitLinesAux rest []
  | c :: rest, acc => splitLinesAux rest (c :: acc)

/-- Embedding of `playlistText.split(/\r?\n/)`. -/
def splitLines (s : String) : List String :=
  (splitLinesAux s.data []).map (fun l => ⟨l⟩)

/-- Embedding of JS `String.prototype.trim` (ASCII whitespace, which is
all that occurs in playlists). -/
def jsTrim (s : String) : String :=
  ⟨((s.data.dropWhile Char.isWhitespace).reverse.dropWhile Char.isWhitespace).reverse⟩

/-- Download-pipeline failures: `UnsupportedSourceError` versus a generic
`Error`, each carrying its message. -/
inductive DlError where
  | unsupported (msg : String)
  | generic (msg : String)
  deriving DecidableEq, Repr

/-- The two kinds of playlist reference (`'segment' | 'map'`). -/
inductive RefKind where
  | segment
  | map
  deriving DecidableEq, Repr

/-- Embedding of the `PlaylistReference` record (downloader.ts:42-47). -/
structure PlaylistReference where
  kind : RefKind
  lineIndex : Nat
  originalLine : String
  absoluteUrl : String
  deriving DecidableEq, Repr

/-- Does the regex `/URI="([^"]+)"/i` match at this exact position?  Only
the three letters are case-insensitive. -/
def matchesUriOpen : List Char → Bool
  | u :: r :: i :: eq :: q :: _ =>
    u.toLower = 'u' && r.toLower = 'r' && i.toLower = 'i' && eq = '=' && q = '"'
  | _ => false

/-- First match of `/URI="([^"]+)"/i` in a line: the captured group, i.e.
the non-empty quote-free run between the quotes. -/
def extractUriAttrAux : List Char → Option (List Char)
  | [] => none
  | c :: rest =>
    let l := c :: rest
    if matchesUriOpen l then
      let after := l.drop 5
      let content := after.takeWhile (fun ch => ch ≠ '"')
      if content.isEmpty then extractUriAttrAux rest
      else if content.length < after.length then some content
      else extractUriAttrAux rest
    else extractUriAttrAux rest

/-- Embedding of `/URI="([^"]+)"/i.exec(rawLine)?.[1]`. -/
def extractUriAttr (line : String) : Option String :=
  (extractUriAttrAux line.data).map (fun l => ⟨l⟩)

/-- Replace the first `/URI="([^"]+)"/i` match by `URI="<repl>"`; `none`
when the pattern does not occur. -/
def replaceUriAttrAux (repl : List Char) : List Char → Option (List Char)
  | [] => none
  | c :: rest =>
    let l := c :: rest
    if matchesUriOpen l then
      let after := l.drop 5
      let content := after.takeWhile (fun ch => ch ≠ '"')
      if ¬ content.isEmpty ∧ content.length < after.length then
        some ('U' :: 'R' :: 'I' :: '=' :: '"' :: (repl ++ '"' :: after.drop (content.length + 1)))
      else
        match replaceUriAttrAux repl rest with
        | some out => some (c :: out)
        | none => none
    else
      match replaceUriAttrAux repl rest with
      | some out => some (c :: out)
      | none => none

/-- Embedding of `line.replace(/URI="([^"]+)"/i, 'URI="' + localPath + '"')`
(the local paths never contain `$`, so JS replacement escapes are inert). -/
def replaceUriAttr (line repl : String) : String :=
  match replaceUriAttrAux repl.data line.data with
  | some out => ⟨out⟩
  | none => line

/-- The `UnsupportedSourceError` thrown for `#EXT-X-KEY` playlists. -/
def extKeyErrorMsg : String := "Зашифрованные HLS-плейлисты (EXT-X-KEY) не поддерживаются."

/-- The per-line loop of `parseMediaPlaylist` (downloader.ts:215-250),
parameterised by WHATWG resolution `new URL(ref, mediaUrl)`. -/
def parseMediaPlaylistAux (resolve : String → String → String) (mediaUrl : String) :
    List String → Nat → Except DlError (List PlaylistReference)
  | [], _ => .ok []
  | rawLine :: rest, index =>
    let trimmed := jsTrim rawLine
    if trimmed = "" then parseMediaPlaylistAux resolve mediaUrl rest (index + 1)
    else if jsStartsWith trimmed "#EXT-X-KEY" then .error (.unsupported extKeyErrorMsg)
    else if jsStartsWith trimmed "#EXT-X-MAP" then
      match extractUriAttr rawLine with
      | some uri =>
        match parseMediaPlaylistAux resolve mediaUrl rest (index + 1) with
        | .error e => .error e
        | .ok tail =>
          .ok ({ kind := .map, lineIndex := index, originalLine := rawLine
                 absoluteUrl := resolve uri mediaUrl } :: tail)
      | none => parseMediaPlaylistAux resolve mediaUrl rest (index + 1)
    else if jsStartsWith trimmed "#" then parseMediaPlaylistAux resolve mediaUrl rest (index + 1)
    else
      match parseMediaPlaylistAux resolve mediaUrl rest (index + 1) with
      | .error e => .error e
      | .ok tail =>
        .ok ({ kind := .segment, lineIndex := index, originalLine := rawLine
               absoluteUrl := resolve trimmed mediaUrl } :: tail)

/-- Embedding of `parseMediaPlaylist` (downloader.ts:211-253). -/
def parseMediaPlaylist (resolve : String → String → String)
    (playlistText mediaUrl : String) :
    Except DlError (List String × List PlaylistReference) :=
  let lines := splitLines playlistText
  match parseMediaPlaylistAux resolve mediaUrl lines 0 with
  | .error e => .error e
  | .ok references => .ok (lines, references)

/-! ## `src/downloader.ts` — local filenames and extensions -/

/-- Node `path.extname` on a POSIX pathname: the suffix of the last path
portion from its last `.`, empty when there is no dot or the dot is the
portion's first character (`.dotfile`); `.` and `..` have no extension. -/
def extnamePosix (p : String) : String :=
  let base := (splitOnCharAux '/' p.data []).getLastD []
  if base = ['.', '.'] then ""
  else
    let revAfter := base.reverse.takeWhile (fun c => c ≠ '.')
    if revAfter.length = base.length then ""
    else if revAfter.length + 1 = base.length then ""
    else ⟨'.' :: revAfter.reverse⟩

/-- A character allowed by `[a-z0-9]` under the `/i` flag. -/
def isSafeExtChar (c : Char) : Bool :=
  c.isDigit || ('a' ≤ c && c ≤ 'z') || ('A' ≤ c && c ≤ 'Z')

/-- The test `/^\.[a-z0-9]{1,8}$/i`. -/
def isSafeExt (e : String) : Bool :=
  match e.data with
  | '.' :: rest => 1 ≤ rest.length && rest.length ≤ 8 && rest.all isSafeExtChar
  | _ => false

/-- Embedding of `toSafeExtensionFromUrl` (downloader.ts:65-77),
parameterised by WHATWG URL parsing (`pathnameOf` returns the parsed
`pathname`, `none` when `new URL` throws). -/
def toSafeExtensionFromUrl (pathnameOf : String → Option String)
    (urlString fallback : String) : String :=
  match pathnameOf urlString with
  | some pathname =>
    let ext := jsToLower (extnamePosix pathname)
    if ext ≠ "" && isSafeExt ext then ext else fallback
  | none => fallback

/-- Decimal digits of `n`, most significant first, via fuel-bounded
division (structural, so proofs can evaluate it); embeds JS `String(n)`
for a non-negative integer. -/
def decDigitsCore : Nat → Nat → List Char → List Char
  | 0, _, acc => acc
  | fuel + 1, n, acc =>
    let d := Char.ofNat (n % 10 + 48)
    if n < 10 then d :: acc else decDigitsCore fuel (n / 10) (d :: acc)

/-- Embedding of JS `String(n)` for a natural number. -/
def jsNumToString (n : Nat) : String := ⟨decDigitsCore (n + 1) n []⟩

/-- Embedding of `s.padStart(5, '0')`. -/
def padStart5Zeros (s : String) : String :=
  ⟨List.replicate (5 - s.data.length) '0' ++ s.data⟩

/-! ## `src/downloader.ts` — the HLS ingestion engine (downloadHls) -/

/-- The value stored per unique absolute URL in `resourceMap`. -/
structure LocalRes where
  localPath : String
  kind : RefKind
  deriving DecidableEq, Repr

/-- The `resourceMap` construction loop (downloader.ts:416-442): walk the
references in order, skip URLs already mapped, and give each new URL the
next zero-padded counter of its kind.  `seen` holds the keys inserted so
far (`resourceMap.has`); entries come out in insertion order, as
`Map.entries()` iterates them. -/
def buildResourceEntries (pathnameOf : String → Option String) :
    List PlaylistReference → List String → Nat → Nat → List (String × LocalRes)
  | [], _, _, _ => []
  | ref :: rest, seen, segC, mapC =>
    if ref.absoluteUrl ∈ seen then buildResourceEntries pathnameOf rest seen segC mapC
    else
      match ref.kind with
      | .segment =>
        let ext := toSafeExtensionFromUrl pathnameOf ref.absoluteUrl ".ts"
        let fileName := "seg-" ++ padStart5Zeros (jsNumToString (segC + 1)) ++ ext
        (ref.absoluteUrl, { localPath := "segments/" ++ fileName, kind := .segment })
          :: buildResourceEntries pathnameOf rest (ref.absoluteUrl :: seen) (segC + 1) mapC
      | .map =>
        let ext := toSafeExtensionFromUrl pathnameOf ref.absoluteUrl ".bin"
        let fileName := "map-" ++ padStart5Zeros (jsNumToString (mapC + 1)) ++ ext
        (ref.absoluteUrl, { localPath := "segments/" ++ fileName, kind := .map })
          :: buildResourceEntries pathnameOf rest (ref.absoluteUrl :: seen) segC (mapC + 1)

/-- `resourceMap.get` over the entry list. -/
def lookupEntry : List (String × LocalRes) → String → Option LocalRes
  | [], _ => none
  | (k, v) :: rest, key => if k = key then some v else lookupEntry rest key

/-- What one HLS resource response looks like to the download loop. -/
structure ResourceResponse where
  status : Nat
  contentLengthHeader : Option String
  chunks : List Nat
  deriving DecidableEq, Repr

/-- Environment for HLS ingestion: WHATWG URL resolution/parsing and the
network behind `fetchWithRedirects` for segment resources. -/
structure HlsEnv where
  resolve : String → String → String
  pathnameOf : String → Option String
  fetchResource : String → ResourceResponse

/-- Observable ingestion I/O: a resource request issued, a segment file
created on disk, and the final rewritten playlist written as
`index.m3u8`. -/
inductive HlsEvent where
  | fetched (url : String)
  | wrote (path : String)
  | wroteIndex (rewrittenLines : List String)
  deriving DecidableEq, Repr

/-- The byte-cap error message of the HLS path. -/
def hlsByteCapMsg (maxBytes : Nat) : String :=
  "Размер HLS-загрузки превышает максимум (" ++ jsNumToString maxBytes ++ " байт)."

/-- The per-chunk byte counter of `streamResponseToFile` combined with the
`onChunk` byte-cap check of `downloadHls` (downloader.ts:474-485); the
coarse progress persistence step is modelled at the job-controller level. -/
def streamHlsChunks (maxBytes : Nat) : List Nat → Nat → Except DlError Nat
  | [], total => .ok total
  | delta :: rest, total =>
    let total' := total + delta
    if maxBytes < total' then .error (.unsupported (hlsByteCapMsg maxBytes))
    else streamHlsChunks maxBytes rest total'

/-- The resource download loop of `downloadHls` (downloader.ts:447-486):
one fetch per unique resource, auth failures are unsupported, other
non-2xx are hard errors, the byte budget is checked against the declared
`content-length` and then after every chunk.  The `wrote` event marks the
file's creation (`createWriteStream`), so it precedes the streaming. -/
def downloadHlsResources (env : HlsEnv) (maxBytes : Nat) :
    List (String × LocalRes) → Nat → Except DlError Nat × List HlsEvent
  | [], total => (.ok total, [])
  | (url, res) :: rest, total =>
    let resp := env.fetchResource url
    if resp.status = 401 ∨ resp.status = 403 then
      (.error (.unsupported "URL HLS-сегментов требуют авторизацию и не поддерживаются."),
        [.fetched url])
    else if ¬ (200 ≤ resp.status ∧ resp.status ≤ 299) then
      (.error (.generic ("Не удалось скачать HLS-сегмент (" ++ jsNumToString resp.status ++ ").")),
        [.fetched url])
    else
      let clBad : Bool :=
        match parseIntJS (resp.contentLengthHeader.getD "0") with
        | some n => decide (0 < n) && decide ((maxBytes : Int) < (total : Int) + n)
        | none => false
      if clBad then
        (.error (.unsupported (hlsByteCapMsg maxBytes)), [.fetched url])
      else
        match streamHlsChunks maxBytes resp.chunks total with
        | .error e => (.error e, [.fetched url, .wrote res.localPath])
        | .ok total' =>
          let next := downloadHlsResources env maxBytes rest total'
          (next.1, .fetched url :: .wrote res.localPath :: next.2)

/-- The playlist rewrite (downloader.ts:488-504): each reference's line is
replaced by its resource's local path (segment lines wholesale, map lines
only inside the quoted `URI` attribute). -/
def rewriteLines (entries : List (String × LocalRes))
    (refs : List PlaylistReference) (lines : List String) : List String :=
  refs.foldl
    (fun ls ref =>
      match lookupEntry entries ref.absoluteUrl with
      | none => ls
      | some res =>
        match ref.kind with
        | .segment => ls.set ref.lineIndex res.localPath
        | .map => ls.set ref.lineIndex (replaceUriAttr ref.originalLine res.localPath))
    lines

/-- Embedding of `downloadHls` from the point where the media playlist
text is in hand (downloader.ts:405-512): parse, reject key/empty/oversize
playlists, build the deduplicated resource map, download every unique
resource once, then write the rewritten playlist; alongside the result it
returns the trace of network/disk events. -/
def downloadHlsFromMediaPlaylist (env : HlsEnv) (maxSegments maxBytes : Nat)
    (mediaPlaylistText mediaPlaylistUrl : String) :
    Except DlError (String × Nat) × List HlsEvent :=
  match parseMediaPlaylist env.resolve mediaPlaylistText mediaPlaylistUrl with
  | .error e => (.error e, [])
  | .ok (lines, references) =>
    let segmentsOnly := references.filter (fun r => r.kind = RefKind.segment)
    if segmentsOnly.length = 0 then
      (.error (.unsupported "В плейлисте не найдено воспроизводимых HLS-сегментов."), [])
    else if maxSegments < segmentsOnly.length then
      (.error (.unsupported ("Количество HLS-сегментов превышает лимит (" ++
        jsNumToString maxSegments ++ ").")), [])
    else
      let entries := buildResourceEntries env.pathnameOf references [] 0 0
      match downloadHlsResources env maxBytes entries 0 with
      | (.error e, events) => (.error e, events)
      | (.ok totalBytes, events) =>
        (.ok (mediaPlaylistUrl, totalBytes),
          events ++ [.wroteIndex (rewriteLines entries references lines)])

/-- Concrete ingestion environment: identity URL resolution, every
resource answers `200` with one 1-byte chunk. -/
def wHlsEnv : HlsEnv :=
  { resolve := fun r _ => r
    pathnameOf := fun _ => none
    fetchResource := fun _ => { status := 200, contentLengthHeader := none, chunks := [1] } }

/-- The text a reference's line is rewritten to: the local path itself for
a segment line, the `URI` attribute replacement for a map line. -/
def lineRewrite (r : PlaylistReference) (res : LocalRes) : String :=
  match r.kind with
  | .segment => res.localPath
  | .map => replaceUriAttr r.originalLine res.localPath

/-! ## `src/db.ts` — the persisted Item record and updateItem patches -/

/-- `ItemType` (db.ts). -/
inductive ItemType where
  | file
  | hls
  | youtube
  | instagram
  | rutube
  | ok
  | vk
  | unsupported
  deriving DecidableEq, Repr

/-- `ItemStatus` (db.ts). -/
inductive ItemStatus where
  | queued
  | downloading
  | ready
  | unsupported
  | error
  deriving DecidableEq, Repr

/-- The persisted `Item` record (db.ts), timestamps omitted. -/
structure Item where
  id : String
  ownerId : String
  sourceUrl : String
  finalUrl : String
  type : ItemType
  status : ItemStatus
  reason : Option String
  title : String
  sizeBytes : Nat
  deriving DecidableEq, Repr

/-- An `ItemPatch` for `updateItem` (db.ts): the outer `Option` is field
presence (`undefined` entries are filtered out before the SQL update),
`reason`'s inner `Option` is the SQL `NULL`. -/
structure ItemPatch where
  sourceUrl : Option String
  finalUrl : Option String
  type : Option ItemType
  status : Option ItemStatus
  reason : Option (Option String)
  title : Option String
  sizeBytes : Option Nat
  deriving DecidableEq, Repr

/-- `updateItem`'s effect on the stored record: set exactly the present
fields. -/
def applyPatch (item : Item) (p : ItemPatch) : Item :=
  { item with
    sourceUrl := p.sourceUrl.getD item.sourceUrl
    finalUrl := p.finalUrl.getD item.finalUrl
    type := p.type.getD item.type
    status := p.status.getD item.status
    reason := p.reason.getD item.reason
    title := p.title.getD item.title
    sizeBytes := p.sizeBytes.getD item.sizeBytes }

/-- The record invariant of the spec: `status=unsupported` implies the
type was forced to `unsupported` and a reason is present. -/
def ItemInv (item : Item) : Prop :=
  item.status = ItemStatus.unsupported →
    item.type = ItemType.unsupported ∧ item.reason ≠ none

/-- A patch with no fields (helper to spell the call-site shapes). -/
def emptyPatch : ItemPatch :=
  { sourceUrl := none, finalUrl := none, type := none, status := none
    reason := none, title := none, sizeBytes := none }

/-- downloader.ts:592 — `updateItem(id, { status: 'downloading', reason: null })`. -/
def runStartPatch : ItemPatch :=
  { emptyPatch with status := some .downloading, reason := some none }

/-- downloader.ts:328/482/538 — the coarse progress checkpoints
`updateItem(id, { sizeBytes, status: 'downloading' })`. -/
def progressPatch (sizeBytes : Nat) : ItemPatch :=
  { emptyPatch with sizeBytes := some sizeBytes, status := some .downloading }

/-- downloader.ts:349/372 — `updateItem(id, { title, finalUrl })` after a
platform resolver succeeds. -/
def resolvedTitlePatch (title finalUrl : String) : ItemPatch :=
  { emptyPatch with title := some title, finalUrl := some finalUrl }

/-- downloader.ts:615-620 — the success write
`{ finalUrl, sizeBytes, status: 'ready', reason: null }`. -/
def successPatch (finalUrl : String) (sizeBytes : Nat) : ItemPatch :=
  { emptyPatch with
      finalUrl := some finalUrl,
      sizeBytes := some sizeBytes,
      status := some .ready,
      reason := some none }

/-- downloader.ts:633-637 — the typed-unsupported failure write
`{ type: 'unsupported', status: 'unsupported', reason: error.message }`. -/
def unsupportedPatch (msg : String) : ItemPatch :=
  { emptyPatch with
      type := some .unsupported,
      status := some .unsupported,
      reason := some (some msg) }

/-- downloader.ts:641-644 — the generic failure write
`{ status: 'error', reason: errorMessage(error) }`. -/
def errorPatch (msg : String) : ItemPatch :=
  { emptyPatch with status := some .error, reason := some (some msg) }

/-- server.ts:870-875 — the inbox classification's unsupported write
`{ finalUrl, type: 'unsupported', status: 'unsupported',
   reason: detected.reason ?? '…' }`. -/
def inboxUnsupportedPatch (finalUrl : String) (detectedReason : Option String) : ItemPatch :=
  { emptyPatch with
      finalUrl := some finalUrl,
      type := some .unsupported,
      status := some .unsupported,
      reason := some (some (detectedReason.getD "Неподдерживаемый URL источника.")) }

/-- server.ts:886-892 — the inbox classification's queued write
`{ finalUrl, type: detected.type, status: 'queued', reason: null, title }`
(`title` may be `undefined` and is then filtered out). -/
def inboxQueuedPatch (finalUrl : String) (detectedType : ItemType)
    (resolvedTitle : Option String) : ItemPatch :=
  { emptyPatch with
      finalUrl := some finalUrl,
      type := some detectedType,
      status := some .queued,
      reason := some none,
      title := resolvedTitle }

/-- server.ts:905-909 — the inbox catch-all write, unsupported for a
`UserInputError` and error otherwise, always forcing `type` and a
message. -/
def inboxCatchPatch (isUserInput : Bool) (msg : String) : ItemPatch :=
  { emptyPatch with
      type := some .unsupported,
      status := some (if isUserInput then .unsupported else .error),
      reason := some (some msg) }

/-- The persisted updates the pipeline can issue (one constructor per
`updateItem` call site of the job controller and the inbox handler). -/
inductive IsPipelinePatch : ItemPatch → Prop where
  | runStart : IsPipelinePatch runStartPatch
  | progress (sizeBytes : Nat) : IsPipelinePatch (progressPatch sizeBytes)
  | resolvedTitle (title finalUrl : String) : IsPipelinePatch (resolvedTitlePatch title finalUrl)
  | success (finalUrl : String) (sizeBytes : Nat) : IsPipelinePatch (successPatch finalUrl sizeBytes)
  | unsupported (msg : String) : IsPipelinePatch (unsupportedPatch msg)
  | error (msg : String) : IsPipelinePatch (errorPatch msg)
  | inboxUnsupported (finalUrl : String) (detectedReason : Option String) :
      IsPipelinePatch (inboxUnsupportedPatch finalUrl detectedReason)
  | inboxQueued (finalUrl : String) (detectedType : ItemType) (resolvedTitle : Option String) :
      IsPipelinePatch (inboxQueuedPatch finalUrl detectedType resolvedTitle)
  | inboxCatch (isUserInput : Bool) (msg : String) :
      IsPipelinePatch (inboxCatchPatch isUserInput msg)

/-! ## `src/downloader.ts` — the job controller's catch (Downloader.run) -/

/-- What the dispatched job body can throw: the three typed unsupported
error classes plus a generic `Error` with its runtime `name`
(an abort surfaces as `name = "AbortError"`). -/
inductive JsThrown where
  | unsupportedSource (msg : String)
  | instagramUnsupported (msg : String)
  | rutubeUnsupported (msg : String)
  | jsError (name msg : String)
  deriving DecidableEq, Repr

/-- The `Error#name` of each thrown value. -/
def thrownName : JsThrown → String
  | .unsupportedSource _ => "UnsupportedSourceError"
  | .instagramUnsupported _ => "InstagramUnsupportedError"
  | .rutubeUnsupported _ => "RutubeUnsupportedError"
  | .jsError name _ => name

/-- The `Error#message` of each thrown value. -/
def thrownMessage : JsThrown → String
  | .unsupportedSource msg => msg
  | .instagramUnsupported msg => msg
  | .rutubeUnsupported msg => msg
  | .jsError _ msg => msg

/-- Embedding of `isAbortError` (downloader.ts:58-63): every modelled
thrown value is an `Error` instance, so only the name matters. -/
def isAbortError (e : JsThrown) : Bool := thrownName e = "AbortError"

/-- The `instanceof` test of the catch block (downloader.ts:628-632). -/
def isTypedUnsupported (e : JsThrown) : Bool :=
  match e with
  | .unsupportedSource _ => true
  | .instagramUnsupported _ => true
  | .rutubeUnsupported _ => true
  | .jsError _ _ => false

/-- Embedding of `errorMessage` (security.ts:198-203) on an `Error`. -/
def errorMessage (e : JsThrown) : String :=
  if thrownMessage e ≠ "" then thrownMessage e else "Непредвиденная ошибка"

/-- Observable side effects of one `Downloader.run` invocation. -/
inductive RunEffect where
  | persist (p : ItemPatch)
  | wipeStorage
  deriving DecidableEq, Repr

/-- How the dispatched body (direct / HLS / youtube / resolver download)
ends. -/
inductive JobOutcome where
  | success (finalUrl : String) (sizeBytes : Nat)
  | thrown (e : JsThrown)
  deriving DecidableEq, Repr

/-- Environment for one run: the effects the body performed up to its
completion or throw, and its outcome. -/
structure RunEnv where
  bodyEffects : List RunEffect
  outcome : JobOutcome

/-- Embedding of `Downloader.run` (downloader.ts:591-646): the initial
`downloading` write, the body, then the single catch that maps the
outcome to a terminal write — except for an `AbortError`, which returns
with no further effect. -/
def downloaderRun (env : RunEnv) : List RunEffect :=
  RunEffect.persist runStartPatch ::
    (env.bodyEffects ++
      match env.outcome with
      | .success finalUrl sizeBytes => [RunEffect.persist (successPatch finalUrl sizeBytes)]
      | .thrown e =>
        if isAbortError e then []
        else
          RunEffect.wipeStorage ::
            (if isTypedUnsupported e then [RunEffect.persist (unsupportedPatch (thrownMessage e))]
             else [RunEffect.persist (errorPatch (errorMessage e))]))

/-! ## `src/sources/*` — the URL classifier's fast matchers -/

/-- One disjunct of the host-suffix checks used across the sources:
`lower === suffix || lower.endsWith('.' + suffix)`. -/
def hostMatchesSuffix (hostname suffix : String) : Bool :=
  jsToLower hostname = suffix || jsEndsWith (jsToLower hostname) ("." ++ suffix)

/-- The shared `hasHostSuffix` shape (rutube.ts:45-48 and the analogous
`some(...)` in youtube.ts/instagram.ts). -/
def hasHostSuffix (hostname : String) (suffixes : List String) : Bool :=
  suffixes.any (hostMatchesSuffix hostname)

/-- youtube.ts:5. -/
def isYoutubeHost (hostname : String) : Bool :=
  hasHostSuffix hostname ["youtube.com", "youtu.be"]

/-- instagram.ts:5. -/
def isInstagramHost (hostname : String) : Bool :=
  hasHostSuffix hostname ["instagram.com", "instagr.am"]

/-- rutube.ts:4. -/
def isRutubeHost (hostname : String) : Bool :=
  hasHostSuffix hostname ["rutube.ru"]

/-- rutube.ts:5. -/
def isOkHost (hostname : String) : Bool :=
  hasHostSuffix hostname ["ok.ru"]

/-- rutube.ts:6. -/
def isVkHost (hostname : String) : Bool :=
  hasHostSuffix hostname ["vkvideo.ru", "vk.com", "vk.ru"]

/-- Case-insensitive literal prefix match (for the `/i` regex flag). -/
def ciStartsWith : List Char → List Char → Bool
  | [], _ => true
  | _ :: _, [] => false
  | p :: ps, c :: cs => p.toLower = c.toLower && ciStartsWith ps cs

/-- A character of the class `[a-z0-9]` under `/i`. -/
def isAlnumChar (c : Char) : Bool :=
  c.isDigit || ('a' ≤ c && c ≤ 'z') || ('A' ≤ c && c ≤ 'Z')

/-- A character of the class `[a-zA-Z0-9_-]`. -/
def isShortcodeChar (c : Char) : Bool :=
  isAlnumChar c || c = '_' || c = '-'

/-- Head of the list is a class character. -/
def headIs (test : Char → Bool) : List Char → Bool
  | [] => false
  | c :: _ => test c

/-- The `/\/(p|reel)\/[a-zA-Z0-9_-]+/i` test at one position: `/`, then
`p` or `reel` (case-insensitive), then `/`, then at least one shortcode
character. -/
def igMatchAt : List Char → Bool
  | '/' :: rest =>
    (ciStartsWith "p/".data rest && headIs isShortcodeChar (rest.drop 2)) ||
    (ciStartsWith "reel/".data rest && headIs isShortcodeChar (rest.drop 5))
  | _ => false

/-- Unanchored search of the Instagram media-path pattern
(sources/instagram.ts:4, `INSTAGRAM_MEDIA_PATH.test(pathname)`). -/
def igSearch : List Char → Bool
  | [] => false
  | c :: rest => igMatchAt (c :: rest) || igSearch rest

/-- sources/instagram.ts:4 — `INSTAGRAM_MEDIA_PATH.test(pathname)`. -/
def instagramMediaPathTest (pathname : String) : Bool := igSearch pathname.data

/-- rutube.ts:8 — `/^\/video\/(?:private\/)?([a-z0-9]+)\/?/i.test(pathname)`
(the optional `private/` group, with regex backtracking, as a disjunction). -/
def isRutubeVideoPath (pathname : String) : Bool :=
  ciStartsWith "/video/".data pathname.data &&
    (let r := pathname.data.drop 7
     (ciStartsWith "private/".data r && headIs isAlnumChar (r.drop 8)) || headIs isAlnumChar r)

/-- rutube.ts:9 — `/^\/(?:video|videoembed)\/(\d+)/i.test(pathname)`. -/
def isOkVideoPath (pathname : String) : Bool :=
  (ciStartsWith "/video/".data pathname.data && headIs Char.isDigit (pathname.data.drop 7)) ||
  (ciStartsWith "/videoembed/".data pathname.data && headIs Char.isDigit (pathname.data.drop 12))

/-- A JS regex line terminator (what `.` does not match). -/
def isLineTerm (c : Char) : Bool :=
  c = '\n' || c = '\r' || c = Char.ofNat 0x2028 || c = Char.ofNat 0x2029

/-- The tail `(-?\d+_\d+)` of the VK video id. -/
def vkIdTail (l : List Char) : Bool :=
  let l1 := match l with
    | '-' :: r => r
    | _ => l
  let d1 := l1.takeWhile Char.isDigit
  ¬ d1.isEmpty &&
    (match l1.drop d1.length with
     | '_' :: r2 => ¬ (r2.takeWhile Char.isDigit).isEmpty
     | _ => false)

/-- `video(-?\d+_\d+)` at this position. -/
def vkCore (l : List Char) : Bool :=
  ciStartsWith "video".data l && vkIdTail (l.drop 5)

/-- After `.+` has consumed at least one character: find a `/` followed by
the video core, consuming only non-terminator characters on the way. -/
def vkSlashScan : List Char → Bool
  | [] => false
  | c :: rest => (c = '/' && vkCore rest) || (¬ isLineTerm c && vkSlashScan rest)

/-- rutube.ts:10 —
`/^\/(?:playlist\/.+\/)?video(-?\d+_\d+)/i.test(pathname)`. -/
def isVkVideoPath (pathname : String) : Bool :=
  match pathname.data with
  | '/' :: r =>
    vkCore r ||
      (ciStartsWith "playlist/".data r &&
        (match r.drop 9 with
         | [] => false
         | c :: rest => ¬ isLineTerm c && vkSlashScan rest))
  | _ => false

/-- `DetectResult` (sources/types.ts); the adapter tag as its literal
string. -/
structure DetectResult where
  type : ItemType
  finalUrl : String
  reason : Option String
  adapter : String
  deriving DecidableEq, Repr

/-- sources/youtube.ts — host match only, no path shape. -/
def detectYoutubeSource (u : JsUrl) : Option DetectResult :=
  if isYoutubeHost u.hostname then
    some { type := .youtube, finalUrl := u.href, reason := none, adapter := "youtube" }
  else none

/-- The platform-specific wrong-path reason of the Instagram matcher. -/
def igPathReason : String :=
  "Для Instagram поддерживаются только ссылки вида /p/<shortcode>/ и /reel/<shortcode>/ на публичные публикации."

/-- sources/instagram.ts:6-26. -/
def detectInstagramSource (u : JsUrl) : Option DetectResult :=
  if ¬ isInstagramHost u.hostname then none
  else if ¬ instagramMediaPathTest u.pathname then
    some { type := .unsupported, finalUrl := u.href, reason := some igPathReason
           adapter := "instagram" }
  else some { type := .instagram, finalUrl := u.href, reason := none, adapter := "instagram" }

/-- The platform-specific wrong-path reason of the RuTube matcher. -/
def rutubePathReason : String :=
  "Для RuTube поддерживаются ссылки вида /video/<id>/ или /video/private/<id>/. Используйте прямую ссылку на видео-страницу."

/-- sources/rutube.ts:4-24. -/
def detectRutubeSource (u : JsUrl) : Option DetectResult :=
  if ¬ isRutubeHost u.hostname then none
  else if ¬ isRutubeVideoPath u.pathname then
    some { type := .unsupported, finalUrl := u.href, reason := some rutubePathReason
           adapter := "rutube" }
  else some { type := .rutube, finalUrl := u.href, reason := none, adapter := "rutube" }

/-- The platform-specific wrong-path reason of the OK matcher. -/
def okPathReason : String :=
  "Для OK поддерживаются ссылки вида /video/<id> или /videoembed/<id> на публичные страницы."

/-- sources/ok.ts. -/
def detectOkSource (u : JsUrl) : Option DetectResult :=
  if ¬ isOkHost u.hostname then none
  else if ¬ isOkVideoPath u.pathname then
    some { type := .unsupported, finalUrl := u.href, reason := some okPathReason
           adapter := "ok" }
  else some { type := .ok, finalUrl := u.href, reason := none, adapter := "ok" }

/-- The platform-specific wrong-path reason of the VK matcher. -/
def vkPathReason : String :=
  "Для VK Video поддерживаются ссылки вида /video<owner>_<id> и /playlist/.../video<owner>_<id> на публичные видео."

/-- sources/vk.ts. -/
def detectVkSource (u : JsUrl) : Option DetectResult :=
  if ¬ isVkHost u.hostname then none
  else if ¬ isVkVideoPath u.pathname then
    some { type := .unsupported, finalUrl := u.href, reason := some vkPathReason
           adapter := "vk" }
  else some { type := .vk, finalUrl := u.href, reason := none, adapter := "vk" }

/-- sources/platform-block.ts:8-14. -/
def BLOCKED_PLATFORMS : List (String × String) :=
  [("tiktok.com", "TikTok"), ("facebook.com", "Facebook"), ("x.com", "X/Twitter"),
   ("twitter.com", "X/Twitter"), ("vimeo.com", "Vimeo")]

/-- sources/platform-block.ts:16-21. -/
def findBlockedPlatform (hostname : String) : Option (String × String) :=
  BLOCKED_PLATFORMS.find? (fun pl => hostMatchesSuffix hostname pl.1)

/-- sources/platform-block.ts:23-36. -/
def detectBlockedPlatformSource (u : JsUrl) : Option DetectResult :=
  match findBlockedPlatform u.hostname with
  | none => none
  | some blocked =>
    some { type := .unsupported, finalUrl := u.href
           reason := some (blocked.2 ++
             " не поддерживается в этом сервисе. Используйте прямую ссылку на файл .mp4/.webm/.mov/.m4v или открытый .m3u8 без DRM.")
           adapter := "platform-block" }

/-- Embedding of `detectSourceByAdapters` (sources/index.ts:13-32) on an
already-validated URL; the network probe `detectDirectOrHlsSource` is the
environment `probe`. -/
def detectSourceByAdapters (probe : JsUrl → DetectResult) (parsed : JsUrl) : DetectResult :=
  let fastMatches := [detectYoutubeSource parsed, detectInstagramSource parsed,
    detectRutubeSource parsed, detectOkSource parsed, detectVkSource parsed,
    detectBlockedPlatformSource parsed]
  match fastMatches.findSome? id with
  | some m => m
  | none => probe parsed

/-- A probe standing in for the generic direct/HLS network fallback. -/
def wProbe : JsUrl → DetectResult :=
  fun u => { type := .file, finalUrl := u.href, reason := none, adapter := "direct" }

/-! ## Theorems: supporting lemmas and claim statements -/

@[simp]
theorem chainUrl_zero (env : FetchEnv) (u : JsUrl) : chainUrl env u 0 = u := rfl

theorem chainUrl_succ_shift (env : FetchEnv) (u : JsUrl) (k : Nat) :
    chainUrl env u (k + 1) = chainUrl env (chainStep env u) k := by
  induction k with
  | zero => rfl
  | succ k ih => rw [chainUrl, ih, chainUrl]

/-- Every URL an HTTP request is issued to has passed `assertSafeUrl`:
the safety check is re-run before the request at every hop. -/
theorem fetchGo_trace_safe (env : FetchEnv) (fuel : Nat) (u : JsUrl) :
    ∀ v ∈ (fetchGo env fuel u).2, assertSafeUrl env.net v = .ok () := by
  induction fuel generalizing u with
  | zero => intro v hv; simp [fetchGo] at hv
  | succ fuel ih =>
    intro v hv
    rw [fetchGo] at hv
    cases hassert : assertSafeUrl env.net u with
    | error msg => rw [hassert] at hv; simp at hv
    | ok x =>
      rw [hassert] at hv
      simp only at hv
      split at hv
      · simp at hv
        subst hv
        exact hassert
      · split at hv
        · simp at hv
          subst hv
          exact hassert
        · simp at hv
          rcases hv with hv | hv
          · subst hv; exact hassert
          · exact ih _ v hv

/-- If the first `fuel` hops of the redirect chain are all safe and all
answer with a redirect carrying a `Location` header, the loop exhausts its
fuel, issuing exactly one request per hop, in chain order. -/
theorem fetchGo_allRedirects (env : FetchEnv) (fuel : Nat) (u : JsUrl)
    (hsafe : ∀ k < fuel, assertSafeUrl env.net (chainUrl env u k) = .ok ())
    (hred : ∀ k < fuel, isRedirectStatus (env.fetch (chainUrl env u k)).status = true ∧
      ((env.fetch (chainUrl env u k)).location).isSome = true) :
    fetchGo env fuel u = (.tooManyRedirects, (List.range fuel).map (chainUrl env u)) := by
  induction fuel generalizing u with
  | zero => simp [fetchGo]
  | succ fuel ih =>
    have h0safe : assertSafeUrl env.net u = .ok () := by
      have := hsafe 0 (Nat.succ_pos _)
      rwa [chainUrl_zero] at this
    obtain ⟨h0red, h0loc⟩ := hred 0 (Nat.succ_pos _)
    rw [chainUrl_zero] at h0red h0loc
    obtain ⟨location, hloc⟩ := Option.isSome_iff_exists.mp h0loc
    have hstep : env.resolveUrl location u = chainStep env u := by
      rw [chainStep, hloc]
    have ihx := ih (chainStep env u)
      (fun k hk => by
        have := hsafe (k + 1) (Nat.succ_lt_succ hk)
        rwa [chainUrl_succ_shift] at this)
      (fun k hk => by
        have := hred (k + 1) (Nat.succ_lt_succ hk)
        rwa [chainUrl_succ_shift] at this)
    have hlist : u :: (List.range fuel).map (chainUrl env (chainStep env u)) =
        (List.range (fuel + 1)).map (chainUrl env u) := by
      rw [List.range_succ_eq_map, List.map_cons, chainUrl_zero, List.map_map]
      refine congrArg _ (List.map_congr_left (fun k _ => ?_))
      simp only [Function.comp_apply]
      rw [chainUrl_succ_shift]
    rw [fetchGo, h0safe]
    simp only [h0red, hloc, hstep, ihx, not_true, if_false, Bool.not_eq_true]
    rw [← hlist]

/-! ## Claim theorems for the safe fetch layer -/

/-- C1: a URL whose hostname is a literal IP in a private, loopback,
link-local, carrier-NAT or multicast range, or whose hostname resolves via
DNS to at least one such address, makes `assertSafeUrl` throw a
`UserInputError`, so `fetchWithRedirects` fails before issuing the HTTP
request at that hop (in particular no request at all is issued when it is
the first hop). -/
theorem c1_unsafe_target_blocked (env : FetchEnv) (m : Nat) (u : JsUrl)
    (hUnsafe :
      (env.net.netIsIP (jsToLower u.hostname) ≠ 0 ∧
        isPrivateIp env.net.netIsIP (jsToLower u.hostname) = true) ∨
      (env.net.netIsIP (jsToLower u.hostname) = 0 ∧
        ∃ addrs, env.net.dnsLookup (jsToLower u.hostname) = some addrs ∧
          ∃ a ∈ addrs, isPrivateIp env.net.netIsIP a = true)) :
    ∃ msg, assertSafeUrl env.net u = .error msg ∧
      fetchWithRedirects env m u = (.userInputError msg, []) := by
  have hassert : ∃ msg, assertSafeUrl env.net u = .error msg := by
    unfold assertSafeUrl
    split
    · exact ⟨_, rfl⟩
    · dsimp only
      split
      · exact ⟨_, rfl⟩
      · split
        · split
          · exact ⟨_, rfl⟩
          · rename_i hne hnotpriv
            exfalso
            rcases hUnsafe with ⟨_, hpriv⟩ | ⟨h0, _⟩
            · exact hnotpriv hpriv
            · exact hne h0
        · rename_i h0'
          rcases hUnsafe with ⟨hne, _⟩ | ⟨h0, addrs, hdns, a, ha, hpriv⟩
          · exact absurd hne h0'
          · rw [hdns]
            dsimp only
            split
            · exact ⟨_, rfl⟩
            · split
              · exact ⟨_, rfl⟩
              · rename_i hany
                exfalso
                exact hany (List.any_eq_true.mpr ⟨a, ha, hpriv⟩)
  obtain ⟨msg, hmsg⟩ := hassert
  refine ⟨msg, hmsg, ?_⟩
  rw [fetchWithRedirects, fetchGo, hmsg]

/-- Witness for C1 at a concrete loopback-range literal: no request is
issued. -/
theorem c1_unsafe_target_blocked_witness :
    (fetchWithRedirects wFetchEnv 5 wBadIpUrl).2 = [] := by
  obtain ⟨msg, _, h2⟩ := c1_unsafe_target_blocked wFetchEnv 5 wBadIpUrl
    (Or.inl ⟨by decide, by decide⟩)
  rw [h2]

/-- C2: when the first `m + 1` hops of the redirect chain are all safe and
all respond with a redirect carrying a `Location` header, the fetch fails
with the redirect-limit error after issuing exactly one request per hop
(the initial request plus `m` followed redirects), the issued requests are
exactly the chain prefix, and every issued request's URL passed the full
safety check. -/
theorem c2_redirect_limit (env : FetchEnv) (m : Nat) (u : JsUrl)
    (hsafe : ∀ k, k ≤ m → assertSafeUrl env.net (chainUrl env u k) = .ok ())
    (hred : ∀ k, k ≤ m →
      isRedirectStatus (env.fetch (chainUrl env u k)).status = true ∧
      ((env.fetch (chainUrl env u k)).location).isSome = true) :
    (fetchWithRedirects env m u).1 = .tooManyRedirects ∧
    (fetchWithRedirects env m u).2 = (List.range (m + 1)).map (chainUrl env u) ∧
    ∀ v ∈ (fetchWithRedirects env m u).2, assertSafeUrl env.net v = .ok () := by
  have h := fetchGo_allRedirects env (m + 1) u
    (fun k hk => hsafe k (Nat.lt_succ_iff.mp hk))
    (fun k hk => hred k (Nat.lt_succ_iff.mp hk))
  refine ⟨?_, ?_, fetchGo_trace_safe env (m + 1) u⟩
  · rw [fetchWithRedirects, h]
  · rw [fetchWithRedirects, h]

/-- Witness for C2: a three-hop limit on an endlessly redirecting safe
host exhausts with the redirect-limit outcome. -/
theorem c2_redirect_limit_witness :
    (fetchWithRedirects wFetchEnv 2 wSafeUrl).1 = .tooManyRedirects := by
  have hchain : ∀ k, chainUrl wFetchEnv wSafeUrl k = wSafeUrl := by
    intro k
    induction k with
    | zero => rfl
    | succ k ih => rw [chainUrl, ih]; rfl
  refine (c2_redirect_limit wFetchEnv 2 wSafeUrl ?_ ?_).1
  · intro k _
    rw [hchain k]
    decide
  · intro k _
    rw [hchain k]
    exact ⟨by decide, by decide⟩

/-- C10: the private-address check is fail-closed — a hostname classified
as neither IPv4 nor IPv6 by `net.isIP` is reported private by
`isPrivateIp`, and a dotted-quad string with a missing or out-of-range
octet is reported private by `isPrivateIpv4`, so `assertSafeUrl` blocks
such URLs rather than letting an unparseable address through. -/
theorem c10_fail_closed :
    (∀ (netIsIP : String → Nat) (host : String),
      netIsIP host ≠ 4 → netIsIP host ≠ 6 → isPrivateIp netIsIP host = true) ∧
    (∀ ip : String,
      ((jsSplitDot ip).length ≠ 4 ∨
        ∃ p ∈ jsSplitDot ip, isBadIpPart (parseIntJS p) = true) →
      isPrivateIpv4 ip = true) := by
  constructor
  · intro netIsIP host h4 h6
    unfold isPrivateIp
    rw [if_neg h4, if_neg h6]
  · intro ip h
    have hcond : (decide (((jsSplitDot ip).map parseIntJS).length ≠ 4) ||
        ((jsSplitDot ip).map parseIntJS).any isBadIpPart) = true := by
      rcases h with h | ⟨p, hp, hbad⟩
      · refine Bool.or_eq_true_iff.mpr (Or.inl ?_)
        simpa [List.length_map] using h
      · refine Bool.or_eq_true_iff.mpr (Or.inr ?_)
        exact List.any_eq_true.mpr ⟨parseIntJS p, List.mem_map_of_mem _ hp, hbad⟩
    unfold isPrivateIpv4
    dsimp only
    rw [if_pos hcond]

/-- Witness for C10: a non-IP hostname and a dotted quad with an
out-of-range octet are both reported private. -/
theorem c10_fail_closed_witness :
    isPrivateIp (fun _ => 0) "not-an-ip" = true ∧ isPrivateIpv4 "1.2.3.999" = true := by
  refine ⟨c10_fail_closed.1 (fun _ => 0) "not-an-ip" (by decide) (by decide), ?_⟩
  refine c10_fail_closed.2 "1.2.3.999" (Or.inr ⟨"999", ?_, by decide⟩)
  decide

/-- C9, counterexample: the claim that the signal attached to the request
aborts on both the external cancellation and the timeout *in every
environment the code runs in* is false — in a runtime without
`AbortSignal.any`, with an external signal supplied, the merged signal
ignores the timeout. -/
theorem c9_counterexample :
    ¬ (∀ (hasAny : Bool) (s : AbortSig),
        mergeWithTimeoutSignal hasAny (some s) SigEvent.timeout = true ∧
        (s SigEvent.external = true →
          mergeWithTimeoutSignal hasAny (some s) SigEvent.external = true)) := by
  intro h
  exact absurd (h false externalOnlySignal).1 (by decide)

/-- C9, amended: when the runtime provides `AbortSignal.any`, or when no
external signal is supplied, both the external cancellation and the
per-attempt timeout abort the merged signal; without `AbortSignal.any`
and with an external signal supplied, the external signal alone is used
(the timeout is not enforced). -/
theorem c9_merge_amended (s : AbortSig) :
    mergeWithTimeoutSignal true (some s) SigEvent.timeout = true ∧
    (s SigEvent.external = true →
      mergeWithTimeoutSignal true (some s) SigEvent.external = true) ∧
    (∀ hasAny, mergeWithTimeoutSignal hasAny none = timeoutSignal) ∧
    mergeWithTimeoutSignal false (some s) = s := by
  refine ⟨?_, ?_, fun _ => rfl, rfl⟩
  · simp [mergeWithTimeoutSignal, abortSignalAnySem, timeoutSignal]
  · intro hs
    simp [mergeWithTimeoutSignal, abortSignalAnySem, hs]

/-- Witness for the amended C9 at a concrete external-only signal. -/
theorem c9_merge_amended_witness :
    mergeWithTimeoutSignal true (some externalOnlySignal) SigEvent.timeout = true ∧
    mergeWithTimeoutSignal true (some externalOnlySignal) SigEvent.external = true := by
  obtain ⟨h1, h2, _, _⟩ := c9_merge_amended externalOnlySignal
  exact ⟨h1, h2 (by decide)⟩

/-- If any playlist line trims to an `#EXT-X-KEY` tag, the parse loop
throws the typed unsupported error, whatever else the playlist holds. -/
theorem parseMediaPlaylistAux_key (resolve : String → String → String) (mediaUrl : String) :
    ∀ (lines : List String) (index : Nat),
      (∃ line ∈ lines, jsStartsWith (jsTrim line) "#EXT-X-KEY" = true) →
      parseMediaPlaylistAux resolve mediaUrl lines index = .error (.unsupported extKeyErrorMsg) := by
  intro lines
  induction lines with
  | nil => intro index h; simp at h
  | cons head rest ih =>
    intro index h
    by_cases hkey0 : jsStartsWith (jsTrim head) "#EXT-X-KEY" = true
    · have htne : ¬ (jsTrim head = "") := by
        intro heq
        rw [heq] at hkey0
        exact absurd hkey0 (by decide)
      simp only [parseMediaPlaylistAux]
      rw [if_neg htne, if_pos hkey0]
    · have hrest : ∃ line ∈ rest, jsStartsWith (jsTrim line) "#EXT-X-KEY" = true := by
        rcases h with ⟨line, hmem, hkey⟩
        rcases List.mem_cons.mp hmem with rfl | hmem'
        · exact absurd hkey hkey0
        · exact ⟨line, hmem', hkey⟩
      have hrec := ih (index + 1) hrest
      simp only [parseMediaPlaylistAux]
      split_ifs with h1 h2 h3
      · exact hrec
      · cases hext : extractUriAttr head with
        | some uri => rw [hrec]
        | none => exact hrec
      · exact hrec
      · rw [hrec]

/-- C3: a media playlist containing a line that starts (after trimming)
with `#EXT-X-KEY` makes `parseMediaPlaylist` throw the typed unsupported
error, and HLS ingestion fails with that error before fetching any
segment resource or writing any file (empty event trace), regardless of
the rest of the playlist and of the network. -/
theorem c3_ext_key_unsupported (env : HlsEnv) (maxSegments maxBytes : Nat)
    (text url : String)
    (h : ∃ line ∈ splitLines text, jsStartsWith (jsTrim line) "#EXT-X-KEY" = true) :
    parseMediaPlaylist env.resolve text url = .error (.unsupported extKeyErrorMsg) ∧
    downloadHlsFromMediaPlaylist env maxSegments maxBytes text url =
      (.error (.unsupported extKeyErrorMsg), []) := by
  have hparse : parseMediaPlaylist env.resolve text url = .error (.unsupported extKeyErrorMsg) := by
    unfold parseMediaPlaylist
    dsimp only
    rw [parseMediaPlaylistAux_key env.resolve url (splitLines text) 0 h]
  refine ⟨hparse, ?_⟩
  unfold downloadHlsFromMediaPlaylist
  rw [hparse]

/-- Witness for C3 at a concrete encrypted playlist whose segment would
even be reachable. -/
theorem c3_ext_key_unsupported_witness :
    downloadHlsFromMediaPlaylist wHlsEnv 5000 1000000
      "#EXTM3U\n#EXT-X-KEY:METHOD=AES-128,URI=\"k.key\"\nseg1.ts\n" "u" =
      (.error (.unsupported extKeyErrorMsg), []) :=
  (c3_ext_key_unsupported wHlsEnv 5000 1000000
    "#EXTM3U\n#EXT-X-KEY:METHOD=AES-128,URI=\"k.key\"\nseg1.ts\n" "u"
    (by decide)).2

/-- C4: a parsed media playlist with zero segment references fails as
unsupported, and one whose segment-reference count exceeds the cap fails
as unsupported with an empty event trace — no resource fetched, no file
written. -/
theorem c4_segment_count_guards (env : HlsEnv) (maxSegments maxBytes : Nat)
    (text url : String) (lines : List String) (refs : List PlaylistReference)
    (hparse : parseMediaPlaylist env.resolve text url = .ok (lines, refs)) :
    ((refs.filter (fun r => r.kind = RefKind.segment)).length = 0 →
      downloadHlsFromMediaPlaylist env maxSegments maxBytes text url =
        (.error (.unsupported "В плейлисте не найдено воспроизводимых HLS-сегментов."), [])) ∧
    (maxSegments < (refs.filter (fun r => r.kind = RefKind.segment)).length →
      downloadHlsFromMediaPlaylist env maxSegments maxBytes text url =
        (.error (.unsupported ("Количество HLS-сегментов превышает лимит (" ++
          jsNumToString maxSegments ++ ").")), [])) := by
  constructor
  · intro hzero
    unfold downloadHlsFromMediaPlaylist
    rw [hparse]
    dsimp only
    rw [if_pos hzero]
  · intro hover
    unfold downloadHlsFromMediaPlaylist
    rw [hparse]
    dsimp only
    rw [if_neg (by omega), if_pos hover]

/-- Witness for C4: an empty playlist fails with the no-segments error,
and a two-segment playlist under a cap of one fails with the limit error,
both without any event. -/
theorem c4_segment_count_guards_witness :
    downloadHlsFromMediaPlaylist wHlsEnv 5000 1000000 "#EXTM3U\n" "u" =
      (.error (.unsupported "В плейлисте не найдено воспроизводимых HLS-сегментов."), []) ∧
    downloadHlsFromMediaPlaylist wHlsEnv 1 1000000 "#EXTM3U\nseg1.ts\nseg2.ts\n" "u" =
      (.error (.unsupported ("Количество HLS-сегментов превышает лимит (" ++
        jsNumToString 1 ++ ").")), []) := by
  constructor
  · exact (c4_segment_count_guards wHlsEnv 5000 1000000 "#EXTM3U\n" "u"
      ["#EXTM3U", ""] [] (by decide)).1 (by decide)
  · refine (c4_segment_count_guards wHlsEnv 1 1000000 "#EXTM3U\nseg1.ts\nseg2.ts\n" "u"
      ["#EXTM3U", "seg1.ts", "seg2.ts", ""]
      [{ kind := .segment, lineIndex := 1, originalLine := "seg1.ts", absoluteUrl := "seg1.ts" },
       { kind := .segment, lineIndex := 2, originalLine := "seg2.ts", absoluteUrl := "seg2.ts" }]
      (by decide)).2 (by decide)

/-! ## Decimal rendering of counters (JS `String(n).padStart(5, '0')`) -/

theorem digitsVal_foldl (l : List Char) (a : Nat) :
    l.foldl (fun acc c => acc * 10 + (c.toNat - 48)) a = a * 10 ^ l.length + digitsVal l := by
  induction l generalizing a with
  | nil => simp [digitsVal]
  | cons c l ih =>
    simp only [digitsVal, List.foldl_cons, List.length_cons]
    rw [ih (a * 10 + (c.toNat - 48)), ih (0 * 10 + (c.toNat - 48))]
    ring

theorem digitsVal_replicate_zero (k : Nat) (l : List Char) :
    digitsVal (List.replicate k '0' ++ l) = digitsVal l := by
  induction k with
  | zero => simp
  | succ k ih =>
    simp only [List.replicate_succ, List.cons_append, digitsVal, List.foldl_cons]
    have h0 : (0 : Nat) * 10 + ('0'.toNat - 48) = 0 := by decide
    rw [h0]
    exact ih

theorem digitChar_toNat (d : Nat) (h : d < 10) : (Char.ofNat (d + 48)).toNat = d + 48 := by
  interval_cases d <;> decide

theorem decDigitsCore_val : ∀ (fuel n : Nat) (acc : List Char), n < 10 ^ fuel →
    digitsVal (decDigitsCore fuel n acc) = n * 10 ^ acc.length + digitsVal acc := by
  intro fuel
  induction fuel with
  | zero =>
    intro n acc h
    interval_cases n
    simp [decDigitsCore]
  | succ fuel ih =>
    intro n acc h
    have hmod : n % 10 < 10 := Nat.mod_lt _ (by norm_num)
    have htn : (Char.ofNat (n % 10 + 48)).toNat = n % 10 + 48 := digitChar_toNat _ hmod
    rw [decDigitsCore]
    split
    · rename_i h10
      simp only [digitsVal, List.foldl_cons]
      rw [show (0 : Nat) * 10 + ((Char.ofNat (n % 10 + 48)).toNat - 48) = n % 10 by omega]
      rw [digitsVal_foldl]
      rw [Nat.mod_eq_of_lt h10]
      rfl
    · rename_i h10
      have hdiv : n / 10 < 10 ^ fuel := by
        rw [Nat.div_lt_iff_lt_mul (by norm_num : (0:Nat) < 10)]
        calc n < 10 ^ (fuel + 1) := h
        _ = 10 ^ fuel * 10 := by rw [pow_succ]
      rw [ih (n / 10) _ hdiv]
      simp only [digitsVal, List.length_cons, List.foldl_cons]
      rw [show (0 : Nat) * 10 + ((Char.ofNat (n % 10 + 48)).toNat - 48) = n % 10 by omega]
      rw [digitsVal_foldl]
      have key : n / 10 * 10 ^ (acc.length + 1) + n % 10 * 10 ^ acc.length = n * 10 ^ acc.length := by
        have h1 : n / 10 * 10 ^ (acc.length + 1) = (n / 10 * 10) * 10 ^ acc.length := by ring
        rw [h1, ← Nat.add_mul, Nat.div_add_mod']
      have hfold : List.foldl (fun a c => a * 10 + (c.toNat - 48)) 0 acc = digitsVal acc := rfl
      rw [hfold]
      omega

theorem decDigitsCore_digits : ∀ (fuel n : Nat) (acc : List Char),
    (∀ c ∈ acc, 48 ≤ c.toNat ∧ c.toNat ≤ 57) →
    ∀ c ∈ decDigitsCore fuel n acc, 48 ≤ c.toNat ∧ c.toNat ≤ 57 := by
  intro fuel
  induction fuel with
  | zero => intro n acc hacc; exact hacc
  | succ fuel ih =>
    intro n acc hacc
    have hmod : n % 10 < 10 := Nat.mod_lt _ (by norm_num)
    have htn : (Char.ofNat (n % 10 + 48)).toNat = n % 10 + 48 := digitChar_toNat _ hmod
    have hcons : ∀ c ∈ Char.ofNat (n % 10 + 48) :: acc, 48 ≤ c.toNat ∧ c.toNat ≤ 57 := by
      intro c hc
      rcases List.mem_cons.mp hc with rfl | hc'
      · omega
      · exact hacc c hc'
    rw [decDigitsCore]
    split
    · exact hcons
    · exact ih (n / 10) _ hcons

theorem padNum_val (n : Nat) : digitsVal (padStart5Zeros (jsNumToString n)).data = n := by
  have hlt : n < 10 ^ (n + 1) :=
    lt_of_lt_of_le (Nat.lt_pow_self (by norm_num) n) (Nat.pow_le_pow_right (by norm_num) (Nat.le_succ n))
  show digitsVal (List.replicate _ '0' ++ (jsNumToString n).data) = n
  rw [digitsVal_replicate_zero]
  show digitsVal (decDigitsCore (n + 1) n []) = n
  rw [decDigitsCore_val (n + 1) n [] hlt]
  simp [digitsVal]

theorem padNum_inj {n₁ n₂ : Nat}
    (h : padStart5Zeros (jsNumToString n₁) = padStart5Zeros (jsNumToString n₂)) : n₁ = n₂ := by
  have := padNum_val n₁
  rw [h, padNum_val n₂] at this
  omega

theorem padNum_no_dot (n : Nat) : ∀ c ∈ (padStart5Zeros (jsNumToString n)).data, c ≠ '.' := by
  intro c hc
  have hmem : c ∈ List.replicate (5 - (jsNumToString n).data.length) '0' ++ (jsNumToString n).data := hc
  rcases List.mem_append.mp hmem with hz | hd
  · have := List.eq_of_mem_replicate hz
    subst this
    decide
  · have hdig : 48 ≤ c.toNat ∧ c.toNat ≤ 57 :=
      decDigitsCore_digits (n + 1) n [] (by intro c hc; simp at hc) c hd
    intro hdot
    subst hdot
    revert hdig
    decide

theorem append_cancel_of_noDot : ∀ (p₁ p₂ s₁ s₂ : List Char),
    p₁ ++ '.' :: s₁ = p₂ ++ '.' :: s₂ →
    (∀ c ∈ p₁, c ≠ '.') → (∀ c ∈ p₂, c ≠ '.') →
    p₁ = p₂ ∧ s₁ = s₂ := by
  intro p₁
  induction p₁ with
  | nil =>
    intro p₂ s₁ s₂ h h1 h2
    cases p₂ with
    | nil => simpa using h
    | cons d q =>
      exfalso
      have hd : d = '.' := by
        have := congrArg (fun l => l.head?) h
        simpa using this.symm
      exact h2 d (List.mem_cons_self d q) hd
  | cons c p ih =>
    intro p₂ s₁ s₂ h h1 h2
    cases p₂ with
    | nil =>
      exfalso
      have hc : c = '.' := by
        have := congrArg (fun l => l.head?) h
        simpa using this
      exact h1 c (List.mem_cons_self c p) hc
    | cons d q =>
      have hcd : c = d ∧ p ++ '.' :: s₁ = q ++ '.' :: s₂ := by
        constructor
        · have := congrArg (fun l => l.head?) h
          simpa using this
        · have := congrArg List.tail h
          simpa using this
      obtain ⟨rfl, htail⟩ := hcd
      obtain ⟨hp, hs⟩ := ih q s₁ s₂ htail
        (fun x hx => h1 x (List.mem_cons_of_mem _ hx))
        (fun x hx => h2 x (List.mem_cons_of_mem _ hx))
      exact ⟨by rw [hp], hs⟩

theorem isSafeExt_dot {e : String} (h : isSafeExt e = true) : ∃ t, e.data = '.' :: t := by
  unfold isSafeExt at h
  split at h
  · rename_i rest heq
    exact ⟨rest, heq⟩
  · simp at h

theorem toSafeExtensionFromUrl_dot (pf : String → Option String) (u fb : String)
    (hfb : ∃ t, fb.data = '.' :: t) :
    ∃ t, (toSafeExtensionFromUrl pf u fb).data = '.' :: t := by
  unfold toSafeExtensionFromUrl
  cases pf u with
  | none => exact hfb
  | some p =>
    dsimp only
    split
    · rename_i hcond
      exact isSafeExt_dot (Bool.and_elim_right hcond)
    · exact hfb

theorem string_append_data (a b : String) : (a ++ b).data = a.data ++ b.data := by
  cases a; cases b; rfl

theorem string_eq_of_data {a b : String} (h : a.data = b.data) : a = b := by
  cases a; cases b; exact congrArg String.mk h

/-- Two distinct counters give distinct local filenames of the same kind
(pads are dot-free, extensions start with a dot). -/
theorem prefixed_path_ne (pre : String) (n₁ n₂ : Nat) (e₁ e₂ : String)
    (h₁ : ∃ t, e₁.data = '.' :: t) (h₂ : ∃ t, e₂.data = '.' :: t) (hne : n₁ ≠ n₂) :
    pre ++ padStart5Zeros (jsNumToString n₁) ++ e₁ ≠
    pre ++ padStart5Zeros (jsNumToString n₂) ++ e₂ := by
  intro h
  obtain ⟨t₁, ht₁⟩ := h₁
  obtain ⟨t₂, ht₂⟩ := h₂
  have hdata := congrArg String.data h
  rw [string_append_data, string_append_data, string_append_data, string_append_data,
    ht₁, ht₂, List.append_assoc, List.append_assoc] at hdata
  have hsuffix := List.append_cancel_left hdata
  have := append_cancel_of_noDot _ _ _ _ hsuffix (padNum_no_dot n₁) (padNum_no_dot n₂)
  exact hne (padNum_inj (string_eq_of_data this.1))

/-- Lists with equal-length distinct prefixes and arbitrary suffixes are
distinct. -/
theorem fixed_prefix_ne {p₁ p₂ : List Char} (s₁ s₂ : List Char)
    (hlen : p₁.length = p₂.length) (hne : p₁ ≠ p₂) : p₁ ++ s₁ ≠ p₂ ++ s₂ := by
  intro h
  exact hne (List.append_inj h hlen).1

/-- Shape of every produced resource entry: a fresh counter of its kind
with a dot-led extension. -/
theorem buildResourceEntries_shape (pf : String → Option String) :
    ∀ (refs : List PlaylistReference) (seen : List String) (segC mapC : Nat),
      ∀ e ∈ buildResourceEntries pf refs seen segC mapC,
        (∃ n ext, segC < n ∧ (∃ t, String.data ext = '.' :: t) ∧
          e.2 = { localPath := "segments/" ++ ("seg-" ++ padStart5Zeros (jsNumToString n) ++ ext),
                  kind := RefKind.segment }) ∨
        (∃ n ext, mapC < n ∧ (∃ t, String.data ext = '.' :: t) ∧
          e.2 = { localPath := "segments/" ++ ("map-" ++ padStart5Zeros (jsNumToString n) ++ ext),
                  kind := RefKind.map }) := by
  intro refs
  induction refs with
  | nil => intro seen segC mapC e he; simp [buildResourceEntries] at he
  | cons ref rest ih =>
    intro seen segC mapC e he
    rw [buildResourceEntries] at he
    split at he
    · exact ih seen segC mapC e he
    · split at he
      · rcases List.mem_cons.mp he with rfl | he'
        · left
          refine ⟨segC + 1, toSafeExtensionFromUrl pf ref.absoluteUrl ".ts", Nat.lt_succ_self _,
            toSafeExtensionFromUrl_dot pf ref.absoluteUrl ".ts" ⟨['t', 's'], rfl⟩, rfl⟩
        · rcases ih _ _ _ e he' with ⟨n, ext, hn, hdot, he2⟩ | ⟨n, ext, hn, hdot, he2⟩
          · exact Or.inl ⟨n, ext, by omega, hdot, he2⟩
          · exact Or.inr ⟨n, ext, hn, hdot, he2⟩
      · rcases List.mem_cons.mp he with rfl | he'
        · right
          refine ⟨mapC + 1, toSafeExtensionFromUrl pf ref.absoluteUrl ".bin", Nat.lt_succ_self _,
            toSafeExtensionFromUrl_dot pf ref.absoluteUrl ".bin" ⟨['b', 'i', 'n'], rfl⟩, rfl⟩
        · rcases ih _ _ _ e he' with ⟨n, ext, hn, hdot, he2⟩ | ⟨n, ext, hn, hdot, he2⟩
          · exact Or.inl ⟨n, ext, hn, hdot, he2⟩
          · exact Or.inr ⟨n, ext, by omega, hdot, he2⟩

theorem entryPath_data (tag pad ext : String) :
    ("segments/" ++ (tag ++ pad ++ ext)).data =
      ("segments/".data ++ tag.data) ++ (pad.data ++ ext.data) := by
  rw [string_append_data, string_append_data, string_append_data]
  simp [List.append_assoc]

/-- Same kind tag, different counters: the local paths differ. -/
theorem entry_path_ne_of_counter (tag : String) {n₁ n₂ : Nat} {e₁ e₂ : String}
    (h₁ : ∃ t, e₁.data = '.' :: t) (h₂ : ∃ t, e₂.data = '.' :: t) (hne : n₁ ≠ n₂) :
    "segments/" ++ (tag ++ padStart5Zeros (jsNumToString n₁) ++ e₁) ≠
    "segments/" ++ (tag ++ padStart5Zeros (jsNumToString n₂) ++ e₂) := by
  intro h
  obtain ⟨t₁, ht₁⟩ := h₁
  obtain ⟨t₂, ht₂⟩ := h₂
  have hdata := congrArg String.data h
  rw [entryPath_data, entryPath_data, ht₁, ht₂] at hdata
  have hsuffix := List.append_cancel_left hdata
  have hcancel := append_cancel_of_noDot _ _ _ _ hsuffix (padNum_no_dot n₁) (padNum_no_dot n₂)
  exact hne (padNum_inj (string_eq_of_data hcancel.1))

/-- `seg-` and `map-` paths never coincide. -/
theorem entry_path_ne_seg_map {n₁ n₂ : Nat} (e₁ e₂ : String) :
    "segments/" ++ ("seg-" ++ padStart5Zeros (jsNumToString n₁) ++ e₁) ≠
    "segments/" ++ ("map-" ++ padStart5Zeros (jsNumToString n₂) ++ e₂) := by
  intro h
  have hdata := congrArg String.data h
  rw [entryPath_data, entryPath_data] at hdata
  exact fixed_prefix_ne _ _ (by decide) (by decide) hdata

/-- All local paths produced by the resource-map construction are pairwise
distinct. -/
theorem buildResourceEntries_paths_pairwise (pf : String → Option String) :
    ∀ (refs : List PlaylistReference) (seen : List String) (segC mapC : Nat),
      List.Pairwise (fun a b : String × LocalRes => a.2.localPath ≠ b.2.localPath)
        (buildResourceEntries pf refs seen segC mapC) := by
  intro refs
  induction refs with
  | nil => intro seen segC mapC; simp [buildResourceEntries]
  | cons ref rest ih =>
    intro seen segC mapC
    rw [buildResourceEntries]
    split
    · exact ih seen segC mapC
    · split
      · refine List.Pairwise.cons ?_ (ih _ _ _)
        intro b hb
        rcases buildResourceEntries_shape pf rest _ _ _ b hb with
          ⟨n, ext, hn, hdot, he2⟩ | ⟨n, ext, hn, hdot, he2⟩
        · show "segments/" ++ _ ≠ b.2.localPath
          rw [he2]
          exact entry_path_ne_of_counter "seg-"
            (toSafeExtensionFromUrl_dot pf ref.absoluteUrl ".ts" ⟨['t', 's'], rfl⟩)
            hdot (by omega)
        · show "segments/" ++ _ ≠ b.2.localPath
          rw [he2]
          exact entry_path_ne_seg_map _ _
      · refine List.Pairwise.cons ?_ (ih _ _ _)
        intro b hb
        rcases buildResourceEntries_shape pf rest _ _ _ b hb with
          ⟨n, ext, hn, hdot, he2⟩ | ⟨n, ext, hn, hdot, he2⟩
        · show "segments/" ++ _ ≠ b.2.localPath
          rw [he2]
          exact fun hh => entry_path_ne_seg_map _ _ hh.symm
        · show "segments/" ++ _ ≠ b.2.localPath
          rw [he2]
          exact entry_path_ne_of_counter "map-"
            (toSafeExtensionFromUrl_dot pf ref.absoluteUrl ".bin" ⟨['b', 'i', 'n'], rfl⟩)
            hdot (by omega)

/-- The produced keys avoid `seen` and are duplicate-free ([un]like the
references, thanks to the `resourceMap.has` guard). -/
theorem buildResourceEntries_keys_spec (pf : String → Option String) :
    ∀ (refs : List PlaylistReference) (seen : List String) (segC mapC : Nat),
      (∀ k ∈ (buildResourceEntries pf refs seen segC mapC).map Prod.fst, k ∉ seen) ∧
      ((buildResourceEntries pf refs seen segC mapC).map Prod.fst).Nodup := by
  intro refs
  induction refs with
  | nil => intro seen segC mapC; simp [buildResourceEntries]
  | cons ref rest ih =>
    intro seen segC mapC
    rw [buildResourceEntries]
    split
    · exact ih seen segC mapC
    · rename_i hnot
      have hcons :
          ∀ (entriesTail : List (String × LocalRes)),
            (∀ k ∈ entriesTail.map Prod.fst, k ∉ ref.absoluteUrl :: seen) →
            (entriesTail.map Prod.fst).Nodup →
            (∀ k ∈ ((ref.absoluteUrl :: entriesTail.map Prod.fst) : List String), k ∉ seen) ∧
            ((ref.absoluteUrl :: entriesTail.map Prod.fst) : List String).Nodup := by
        intro entriesTail havoid hnodup
        constructor
        · intro k hk
          rcases List.mem_cons.mp hk with rfl | hk'
          · exact hnot
          · intro hks
            exact havoid k hk' (List.mem_cons_of_mem _ hks)
        · refine List.Pairwise.cons ?_ hnodup
          intro k hk heq
          exact havoid k hk (heq ▸ List.mem_cons_self _ _)
      split
      · have := ih (ref.absoluteUrl :: seen) (segC + 1) mapC
        have hres := hcons _ this.1 this.2
        simpa using hres
      · have := ih (ref.absoluteUrl :: seen) segC (mapC + 1)
        have hres := hcons _ this.1 this.2
        simpa using hres

theorem lookupEntry_eq_some_of_mem_keys :
    ∀ (entries : List (String × LocalRes)) (k : String),
      k ∈ entries.map Prod.fst → ∃ v, lookupEntry entries k = some v := by
  intro entries
  induction entries with
  | nil => intro k hk; simp at hk
  | cons e rest ih =>
    intro k hk
    rw [show lookupEntry (e :: rest) k = if e.1 = k then some e.2 else lookupEntry rest k from rfl]
    by_cases heq : e.1 = k
    · exact ⟨e.2, by rw [if_pos heq]⟩
    · rw [if_neg heq]
      rw [List.map_cons] at hk
      rcases List.mem_cons.mp hk with h | h
      · exact absurd h.symm heq
      · exact ih k h

theorem lookupEntry_mem :
    ∀ (entries : List (String × LocalRes)) (k : String) (v : LocalRes),
      lookupEntry entries k = some v → (k, v) ∈ entries := by
  intro entries
  induction entries with
  | nil => intro k v h; simp [lookupEntry] at h
  | cons e rest ih =>
    intro k v h
    rw [show lookupEntry (e :: rest) k = if e.1 = k then some e.2 else lookupEntry rest k from rfl] at h
    by_cases heq : e.1 = k
    · rw [if_pos heq] at h
      injection h with h2
      have hkv : (k, v) = e := by
        cases e
        cases heq
        cases h2
        rfl
      rw [hkv]
      exact List.mem_cons_self _ _
    · rw [if_neg heq] at h
      exact List.mem_cons_of_mem _ (ih k v h)

/-- Every reference's absolute URL ends up either in `seen` or among the
produced keys. -/
theorem buildResourceEntries_covers (pf : String → Option String) :
    ∀ (refs : List PlaylistReference) (seen : List String) (segC mapC : Nat),
      ∀ ref ∈ refs,
        ref.absoluteUrl ∈ seen ∨
        ref.absoluteUrl ∈ (buildResourceEntries pf refs seen segC mapC).map Prod.fst := by
  intro refs
  induction refs with
  | nil => intro seen segC mapC ref h; simp at h
  | cons refHead rest ih =>
    intro seen segC mapC ref href
    rw [buildResourceEntries]
    rcases List.mem_cons.mp href with rfl | hrest
    · split
      · rename_i hseen
        exact Or.inl hseen
      · right
        split <;> simp
    · split
      · exact ih seen segC mapC ref hrest
      · have step : ∀ (seen' : List String) (sc mc : Nat),
            seen' = refHead.absoluteUrl :: seen →
            ref.absoluteUrl ∈ seen' ∨
              ref.absoluteUrl ∈ (buildResourceEntries pf rest seen' sc mc).map Prod.fst →
            ref.absoluteUrl ∈ seen ∨
              ref.absoluteUrl ∈ refHead.absoluteUrl ::
                (buildResourceEntries pf rest seen' sc mc).map Prod.fst := by
          intro seen' sc mc hseen' hcase
          rcases hcase with hs | hk
          · rw [hseen'] at hs
            rcases List.mem_cons.mp hs with heq | hs'
            · exact Or.inr (heq ▸ List.mem_cons_self _ _)
            · exact Or.inl hs'
          · exact Or.inr (List.mem_cons_of_mem _ hk)
        split
        · have := step (refHead.absoluteUrl :: seen) (segC + 1) mapC rfl
            (ih _ (segC + 1) mapC ref hrest)
          simpa using this
        · have := step (refHead.absoluteUrl :: seen) segC (mapC + 1) rfl
            (ih _ segC (mapC + 1) ref hrest)
          simpa using this

/-- When the resource loop succeeds, its event trace is exactly one fetch
and one file creation per entry, in order. -/
theorem downloadHlsResources_ok_events (env : HlsEnv) (maxBytes : Nat) :
    ∀ (entries : List (String × LocalRes)) (total total' : Nat),
      (downloadHlsResources env maxBytes entries total).1 = .ok total' →
      (downloadHlsResources env maxBytes entries total).2 =
        (entries.map (fun e => [HlsEvent.fetched e.1, HlsEvent.wrote e.2.localPath])).flatten := by
  intro entries
  induction entries with
  | nil => intro total total' h; simp [downloadHlsResources]
  | cons e rest ih =>
    intro total total' h
    by_cases hauth : (env.fetchResource e.1).status = 401 ∨ (env.fetchResource e.1).status = 403
    · rw [downloadHlsResources, if_pos hauth] at h
      simp at h
    · by_cases h2xx : 200 ≤ (env.fetchResource e.1).status ∧ (env.fetchResource e.1).status ≤ 299
      · rw [downloadHlsResources, if_neg hauth, if_neg (not_not_intro h2xx)] at h
        rw [downloadHlsResources, if_neg hauth, if_neg (not_not_intro h2xx)]
        dsimp only at h ⊢
        cases hcl : (match parseIntJS ((env.fetchResource e.1).contentLengthHeader.getD "0") with
          | some n => decide (0 < n) && decide ((maxBytes : Int) < (total : Int) + n)
          | none => false) with
        | true =>
          rw [hcl] at h
          simp at h
        | false =>
          rw [hcl] at h
          rw [if_neg (by decide : ¬((false : Bool) = true))] at h ⊢
          cases hstream : streamHlsChunks maxBytes (env.fetchResource e.1).chunks total with
          | error err =>
            rw [hstream] at h
            simp at h
          | ok total₁ =>
            rw [hstream] at h
            dsimp only at h ⊢
            rw [List.map_cons, List.flatten_cons, ih total₁ total' h]
            rfl
      · rw [downloadHlsResources, if_neg hauth, if_pos h2xx] at h
        simp at h

theorem count_fetched_flatten (u : String) :
    ∀ entries : List (String × LocalRes),
      ((entries.map (fun e => [HlsEvent.fetched e.1, HlsEvent.wrote e.2.localPath])).flatten).count
        (HlsEvent.fetched u) = (entries.map Prod.fst).count u := by
  intro entries
  induction entries with
  | nil => simp
  | cons e rest ih =>
    rw [List.map_cons, List.flatten_cons, List.count_append, ih, List.map_cons]
    by_cases heq : e.1 = u
    · subst heq
      simp [List.count_cons]
      omega
    · simp [List.count_cons, heq, Ne.symm heq]

theorem count_wrote_flatten (lp : String) :
    ∀ entries : List (String × LocalRes),
      ((entries.map (fun e => [HlsEvent.fetched e.1, HlsEvent.wrote e.2.localPath])).flatten).count
        (HlsEvent.wrote lp) = (entries.map (fun e => e.2.localPath)).count lp := by
  intro entries
  induction entries with
  | nil => simp
  | cons e rest ih =>
    rw [List.map_cons, List.flatten_cons, List.count_append, ih, List.map_cons]
    by_cases heq : e.2.localPath = lp
    · rw [heq]
      simp [List.count_cons]
      omega
    · simp [List.count_cons, heq, Ne.symm heq]

/-- The references produced by the parse loop carry strictly increasing
line indices inside the window of remaining lines. -/
theorem parseMediaPlaylistAux_bounds (resolve : String → String → String) (mediaUrl : String) :
    ∀ (lines : List String) (index : Nat) (refs : List PlaylistReference),
      parseMediaPlaylistAux resolve mediaUrl lines index = .ok refs →
      (∀ r ∈ refs, index ≤ r.lineIndex ∧ r.lineIndex < index + lines.length) ∧
      List.Pairwise (fun a b => a.lineIndex < b.lineIndex) refs := by
  intro lines
  induction lines with
  | nil =>
    intro index refs h
    rw [parseMediaPlaylistAux] at h
    injection h with h
    subst h
    exact ⟨by intro r hr; simp at hr, List.Pairwise.nil⟩
  | cons rawLine rest ih =>
    intro index refs h
    rw [parseMediaPlaylistAux] at h
    split_ifs at h with h1 h2 h3 h4
    · obtain ⟨hb, hp⟩ := ih (index + 1) refs h
      refine ⟨fun r hr => ?_, hp⟩
      have := hb r hr
      simp only [List.length_cons]
      omega
    · -- #EXT-X-MAP line
      cases hext : extractUriAttr rawLine with
      | some uri =>
        rw [hext] at h
        cases hrec : parseMediaPlaylistAux resolve mediaUrl rest (index + 1) with
        | error e => rw [hrec] at h; simp at h
        | ok tail =>
          rw [hrec] at h
          injection h with h
          subst h
          obtain ⟨hb, hp⟩ := ih (index + 1) tail hrec
          constructor
          · intro r hr
            rcases List.mem_cons.mp hr with rfl | hr'
            · simp only [List.length_cons]
              omega
            · have := hb r hr'
              simp only [List.length_cons]
              omega
          · refine List.Pairwise.cons ?_ hp
            intro b hb'
            have := (hb b hb').1
            simp only
            omega
      | none =>
        rw [hext] at h
        obtain ⟨hb, hp⟩ := ih (index + 1) refs h
        refine ⟨fun r hr => ?_, hp⟩
        have := hb r hr
        simp only [List.length_cons]
        omega
    · obtain ⟨hb, hp⟩ := ih (index + 1) refs h
      refine ⟨fun r hr => ?_, hp⟩
      have := hb r hr
      simp only [List.length_cons]
      omega
    · -- segment line
      cases hrec : parseMediaPlaylistAux resolve mediaUrl rest (index + 1) with
      | error e => rw [hrec] at h; simp at h
      | ok tail =>
        rw [hrec] at h
        injection h with h
        subst h
        obtain ⟨hb, hp⟩ := ih (index + 1) tail hrec
        constructor
        · intro r hr
          rcases List.mem_cons.mp hr with rfl | hr'
          · simp only [List.length_cons]
            omega
          · have := hb r hr'
            simp only [List.length_cons]
            omega
        · refine List.Pairwise.cons ?_ hp
          intro b hb'
          have := (hb b hb').1
          simp only
          omega

theorem rewriteLines_cons (entries : List (String × LocalRes)) (r : PlaylistReference)
    (refs : List PlaylistReference) (lines : List String) :
    rewriteLines entries (r :: refs) lines =
      rewriteLines entries refs
        (match lookupEntry entries r.absoluteUrl with
         | none => lines
         | some res =>
           match r.kind with
           | .segment => lines.set r.lineIndex res.localPath
           | .map => lines.set r.lineIndex (replaceUriAttr r.originalLine res.localPath)) := by
  rfl

theorem rewriteLines_length (entries : List (String × LocalRes)) :
    ∀ (refs : List PlaylistReference) (lines : List String),
      (rewriteLines entries refs lines).length = lines.length := by
  intro refs
  induction refs with
  | nil => intro lines; rfl
  | cons r rest ih =>
    intro lines
    rw [rewriteLines_cons]
    rw [ih]
    cases lookupEntry entries r.absoluteUrl with
    | none => rfl
    | some res => cases r.kind <;> simp [List.length_set]

theorem rewriteLines_get_preserve (entries : List (String × LocalRes)) :
    ∀ (refs : List PlaylistReference) (lines : List String) (j : Nat),
      (∀ r ∈ refs, r.lineIndex ≠ j) →
      (rewriteLines entries refs lines)[j]? = lines[j]? := by
  intro refs
  induction refs with
  | nil => intro lines j _; rfl
  | cons r rest ih =>
    intro lines j hne
    rw [rewriteLines_cons]
    rw [ih _ _ (fun x hx => hne x (List.mem_cons_of_mem _ hx))]
    cases lookupEntry entries r.absoluteUrl with
    | none => rfl
    | some res =>
      cases r.kind <;>
        exact List.getElem?_set_ne (hne r (List.mem_cons_self _ _))

/-- After the rewrite, the line of every mapped reference holds its
resource's local text. -/
theorem rewriteLines_get (entries : List (String × LocalRes)) :
    ∀ (refs : List PlaylistReference) (lines : List String) (r : PlaylistReference)
      (res : LocalRes),
      r ∈ refs →
      List.Pairwise (fun a b => a.lineIndex < b.lineIndex) refs →
      r.lineIndex < lines.length →
      lookupEntry entries r.absoluteUrl = some res →
      (rewriteLines entries refs lines)[r.lineIndex]? = some (lineRewrite r res) := by
  intro refs
  induction refs with
  | nil => intro lines r res hmem; simp at hmem
  | cons rHead rest ih =>
    intro lines r res hmem hpair hlen hlook
    rcases List.mem_cons.mp hmem with rfl | hmem'
    · rw [rewriteLines_cons, hlook]
      have hne : ∀ x ∈ rest, x.lineIndex ≠ r.lineIndex := by
        intro x hx
        have := (List.pairwise_cons.mp hpair).1 x hx
        omega
      cases hk : r.kind with
      | segment =>
        rw [rewriteLines_get_preserve entries rest _ _ hne]
        rw [List.getElem?_set_eq_of_lt _ hlen]
        rw [lineRewrite, hk]
      | map =>
        rw [rewriteLines_get_preserve entries rest _ _ hne]
        rw [List.getElem?_set_eq_of_lt _ hlen]
        rw [lineRewrite, hk]
    · rw [rewriteLines_cons]
      have hlen' :
          r.lineIndex <
            (match lookupEntry entries rHead.absoluteUrl with
             | none => lines
             | some res =>
               match rHead.kind with
               | RefKind.segment => lines.set rHead.lineIndex res.localPath
               | RefKind.map =>
                 lines.set rHead.lineIndex
                   (replaceUriAttr rHead.originalLine res.localPath)).length := by
        cases lookupEntry entries rHead.absoluteUrl with
        | none => exact hlen
        | some res0 => cases rHead.kind <;> simpa [List.length_set] using hlen
      exact ih _ r res hmem' (List.pairwise_cons.mp hpair).2 hlen' hlook

/-- C7: when HLS ingestion succeeds on a playlist in which one absolute
URL appears on two distinct reference lines, that resource was fetched
exactly once, exactly one segment file was created for it, and every line
referencing it is rewritten to the same local relative path. -/
theorem c7_dedup_single_download (env : HlsEnv) (maxSegments maxBytes : Nat)
    (text url : String) (lines : List String) (refs : List PlaylistReference)
    (result : String × Nat) (events : List HlsEvent)
    (hparse : parseMediaPlaylist env.resolve text url = .ok (lines, refs))
    (hrun : downloadHlsFromMediaPlaylist env maxSegments maxBytes text url = (.ok result, events))
    (r₁ r₂ : PlaylistReference) (h₁ : r₁ ∈ refs) (h₂ : r₂ ∈ refs)
    (hne : r₁ ≠ r₂) (hsame : r₁.absoluteUrl = r₂.absoluteUrl) :
    ∃ res : LocalRes,
      lookupEntry (buildResourceEntries env.pathnameOf refs [] 0 0) r₁.absoluteUrl = some res ∧
      events.count (HlsEvent.fetched r₁.absoluteUrl) = 1 ∧
      events.count (HlsEvent.wrote res.localPath) = 1 ∧
      ∀ r ∈ refs, r.absoluteUrl = r₁.absoluteUrl →
        (rewriteLines (buildResourceEntries env.pathnameOf refs [] 0 0) refs lines)[r.lineIndex]? =
          some (lineRewrite r res) := by
  -- Recover the parse components.
  have hparse' := hparse
  unfold parseMediaPlaylist at hparse'
  dsimp only at hparse'
  cases haux : parseMediaPlaylistAux env.resolve url (splitLines text) 0 with
  | error e =>
    rw [haux] at hparse'
    simp at hparse'
  | ok refs0 =>
    rw [haux] at hparse'
    injection hparse' with hparse2
    injection hparse2 with hlines hrefs
    rw [hrefs] at haux
    have hbounds := parseMediaPlaylistAux_bounds env.resolve url (splitLines text) 0 refs haux
    -- Recover the run components.
    unfold downloadHlsFromMediaPlaylist at hrun
    rw [hparse] at hrun
    dsimp only at hrun
    split_ifs at hrun with hz hc
    · simp at hrun
    · simp at hrun
    · cases hDeq : downloadHlsResources env maxBytes
        (buildResourceEntries env.pathnameOf refs [] 0 0) 0 with
      | mk exres loopEv =>
        rw [hDeq] at hrun
        cases exres with
        | error e =>
          dsimp only at hrun
          simp at hrun
        | ok totalB =>
          dsimp only at hrun
          rw [Prod.mk.injEq] at hrun
          obtain ⟨hres, hev⟩ := hrun
          -- The unique resource entry for the duplicated URL.
          have hcov := buildResourceEntries_covers env.pathnameOf refs [] 0 0 r₁ h₁
          have hkey : r₁.absoluteUrl ∈
              (buildResourceEntries env.pathnameOf refs [] 0 0).map Prod.fst := by
            rcases hcov with h | h
            · simp at h
            · exact h
          obtain ⟨res, hlook⟩ := lookupEntry_eq_some_of_mem_keys _ _ hkey
          refine ⟨res, hlook, ?_, ?_, ?_⟩
          · -- fetched exactly once
            have hloopEv : loopEv =
                ((buildResourceEntries env.pathnameOf refs [] 0 0).map
                  (fun e => [HlsEvent.fetched e.1, HlsEvent.wrote e.2.localPath])).flatten := by
              have h1 := downloadHlsResources_ok_events env maxBytes
                (buildResourceEntries env.pathnameOf refs [] 0 0) 0 totalB (by rw [hDeq])
              rw [hDeq] at h1
              exact h1
            rw [← hev, List.count_append, hloopEv, count_fetched_flatten]
            have hnodup := (buildResourceEntries_keys_spec env.pathnameOf refs [] 0 0).2
            rw [List.count_eq_one_of_mem hnodup hkey]
            simp
          · -- wrote exactly once
            have hloopEv : loopEv =
                ((buildResourceEntries env.pathnameOf refs [] 0 0).map
                  (fun e => [HlsEvent.fetched e.1, HlsEvent.wrote e.2.localPath])).flatten := by
              have h1 := downloadHlsResources_ok_events env maxBytes
                (buildResourceEntries env.pathnameOf refs [] 0 0) 0 totalB (by rw [hDeq])
              rw [hDeq] at h1
              exact h1
            rw [← hev, List.count_append, hloopEv, count_wrote_flatten]
            have hpaths : ((buildResourceEntries env.pathnameOf refs [] 0 0).map
                (fun e => e.2.localPath)).Nodup :=
              List.pairwise_map.mpr (buildResourceEntries_paths_pairwise env.pathnameOf refs [] 0 0)
            have hmem : res.localPath ∈
                (buildResourceEntries env.pathnameOf refs [] 0 0).map (fun e => e.2.localPath) :=
              List.mem_map_of_mem _ (lookupEntry_mem _ _ _ hlook)
            rw [List.count_eq_one_of_mem hpaths hmem]
            simp
          · -- every duplicated line is rewritten to the same local path
            intro r hr hrurl
            have hidx : r.lineIndex < lines.length := by
              have := (hbounds.1 r hr).2
              rw [hlines] at this
              omega
            have hlookr : lookupEntry (buildResourceEntries env.pathnameOf refs [] 0 0)
                r.absoluteUrl = some res := by
              rw [hrurl]
              exact hlook
            exact rewriteLines_get _ refs lines r res hr hbounds.2 hidx hlookr

/-- Witness for C7: in a playlist listing `seg1.ts` on two lines, the
resource is fetched once and one file is created for it. -/
theorem c7_dedup_single_download_witness :
    (downloadHlsFromMediaPlaylist wHlsEnv 5000 1000000
      "#EXTM3U\nseg1.ts\nseg1.ts\n" "u").2.count (HlsEvent.fetched "seg1.ts") = 1 ∧
    (downloadHlsFromMediaPlaylist wHlsEnv 5000 1000000
      "#EXTM3U\nseg1.ts\nseg1.ts\n" "u").2.count (HlsEvent.wrote "segments/seg-00001.ts") = 1 := by
  have hmain := c7_dedup_single_download wHlsEnv 5000 1000000
    "#EXTM3U\nseg1.ts\nseg1.ts\n" "u"
    ["#EXTM3U", "seg1.ts", "seg1.ts", ""]
    [{ kind := .segment, lineIndex := 1, originalLine := "seg1.ts", absoluteUrl := "seg1.ts" },
     { kind := .segment, lineIndex := 2, originalLine := "seg1.ts", absoluteUrl := "seg1.ts" }]
    ("u", 1)
    [HlsEvent.fetched "seg1.ts", HlsEvent.wrote "segments/seg-00001.ts",
     HlsEvent.wroteIndex ["#EXTM3U", "segments/seg-00001.ts", "segments/seg-00001.ts", ""]]
    (by decide) (by decide)
    { kind := .segment, lineIndex := 1, originalLine := "seg1.ts", absoluteUrl := "seg1.ts" }
    { kind := .segment, lineIndex := 2, originalLine := "seg1.ts", absoluteUrl := "seg1.ts" }
    (by decide) (by decide) (by decide) (by decide)
  obtain ⟨res, hlook, hcf, hcw, _⟩ := hmain
  have hres : res = { localPath := "segments/seg-00001.ts", kind := RefKind.segment } := by
    have hcomp : lookupEntry (buildResourceEntries wHlsEnv.pathnameOf
        [{ kind := .segment, lineIndex := 1, originalLine := "seg1.ts", absoluteUrl := "seg1.ts" },
         { kind := .segment, lineIndex := 2, originalLine := "seg1.ts", absoluteUrl := "seg1.ts" }]
        [] 0 0) "seg1.ts" =
        some { localPath := "segments/seg-00001.ts", kind := RefKind.segment } := by decide
    rw [hcomp] at hlook
    exact (Option.some.inj hlook).symm
  have hev : (downloadHlsFromMediaPlaylist wHlsEnv 5000 1000000
      "#EXTM3U\nseg1.ts\nseg1.ts\n" "u").2 =
      [HlsEvent.fetched "seg1.ts", HlsEvent.wrote "segments/seg-00001.ts",
       HlsEvent.wroteIndex ["#EXTM3U", "segments/seg-00001.ts", "segments/seg-00001.ts", ""]] := by
    decide
  rw [hev]
  rw [hres] at hcw
  exact ⟨hcf, hcw⟩

/-- C5: every pipeline write that sets `status = unsupported` forces
`type = unsupported` and a non-null `reason` in the same write, and every
pipeline write preserves the item-record invariant. -/
theorem c5_unsupported_invariant :
    (∀ p : ItemPatch, IsPipelinePatch p → p.status = some ItemStatus.unsupported →
      p.type = some ItemType.unsupported ∧ ∃ msg, p.reason = some (some msg)) ∧
    (∀ (item : Item) (p : ItemPatch), IsPipelinePatch p →
      ItemInv item → ItemInv (applyPatch item p)) := by
  constructor
  · intro p hp hs
    cases hp with
    | runStart => simp [runStartPatch, emptyPatch] at hs
    | progress n => simp [progressPatch, emptyPatch] at hs
    | resolvedTitle t f => simp [resolvedTitlePatch, emptyPatch] at hs
    | success f n => simp [successPatch, emptyPatch] at hs
    | unsupported msg => exact ⟨rfl, msg, rfl⟩
    | error msg => simp [errorPatch, emptyPatch] at hs
    | inboxUnsupported f ra =>
      exact ⟨rfl, ra.getD "Неподдерживаемый URL источника.", rfl⟩
    | inboxQueued f t ti => simp [inboxQueuedPatch, emptyPatch] at hs
    | inboxCatch b msg =>
      cases b with
      | true => exact ⟨rfl, msg, rfl⟩
      | false => simp [inboxCatchPatch, emptyPatch] at hs
  · intro item p hp hinv
    cases hp with
    | runStart => intro hs; simp [applyPatch, runStartPatch, emptyPatch] at hs
    | progress n => intro hs; simp [applyPatch, progressPatch, emptyPatch] at hs
    | resolvedTitle t f =>
      intro hs
      simp only [applyPatch, resolvedTitlePatch, emptyPatch, Option.getD_none,
        Option.getD_some] at hs ⊢
      exact hinv hs
    | success f n => intro hs; simp [applyPatch, successPatch, emptyPatch] at hs
    | unsupported msg =>
      intro _
      simp [applyPatch, unsupportedPatch, emptyPatch]
    | error msg => intro hs; simp [applyPatch, errorPatch, emptyPatch] at hs
    | inboxUnsupported f ra =>
      intro _
      simp [applyPatch, inboxUnsupportedPatch, emptyPatch]
    | inboxQueued f t ti =>
      intro hs
      simp [applyPatch, inboxQueuedPatch, emptyPatch] at hs
    | inboxCatch b msg =>
      intro hs
      cases b with
      | true => simp [applyPatch, inboxCatchPatch, emptyPatch]
      | false => simp [applyPatch, inboxCatchPatch, emptyPatch] at hs

/-- Witness for C5 at the job controller's unsupported write applied to a
downloading item. -/
theorem c5_unsupported_invariant_witness :
    (unsupportedPatch "enc").status = some ItemStatus.unsupported ∧
    (unsupportedPatch "enc").type = some ItemType.unsupported ∧
    ItemInv (applyPatch
      { id := "i1", ownerId := "o", sourceUrl := "s", finalUrl := "f"
        type := ItemType.hls, status := ItemStatus.downloading, reason := none
        title := "t", sizeBytes := 0 }
      (unsupportedPatch "enc")) := by
  refine ⟨rfl, (c5_unsupported_invariant.1 _ (IsPipelinePatch.unsupported "enc") rfl).1, ?_⟩
  exact c5_unsupported_invariant.2 _ _ (IsPipelinePatch.unsupported "enc")
    (by intro hs; simp at hs)

/-- C6: if the dispatched body throws an `AbortError`, `Downloader.run`
returns with no persisted write and no storage wipe beyond what had
already happened before the cancellation — the run's effect trace is
exactly the initial `downloading` write followed by the body's own
effects. -/
theorem c6_abort_leaves_state (env : RunEnv) (e : JsThrown)
    (hout : env.outcome = .thrown e) (habort : isAbortError e = true) :
    downloaderRun env = RunEffect.persist runStartPatch :: env.bodyEffects := by
  unfold downloaderRun
  rw [hout]
  simp [habort]

/-- Witness for C6: a body aborted mid-flight adds nothing after its own
effects. -/
theorem c6_abort_leaves_state_witness :
    downloaderRun
      { bodyEffects := [RunEffect.persist (progressPatch 262144)]
        outcome := .thrown (.jsError "AbortError" "This operation was aborted") } =
      [RunEffect.persist runStartPatch, RunEffect.persist (progressPatch 262144)] :=
  c6_abort_leaves_state _ (.jsError "AbortError" "This operation was aborted") rfl (by decide)

theorem jsEndsWith_iff {s suf : String} : jsEndsWith s suf = true ↔ suf.data <:+ s.data := by
  unfold jsEndsWith
  exact List.isSuffixOf_iff_suffix

/-- Two suffix lists that are pairwise incompatible (no equality, neither
dot-extended suffix inside the other) can never both match one hostname. -/
theorem hasHostSuffix_excl {h : String} {L₁ L₂ : List String}
    (hinc : ∀ s₁ ∈ L₁, ∀ s₂ ∈ L₂,
      s₁ ≠ s₂ ∧ ¬ (("." ++ s₁).data <:+ s₂.data) ∧ ¬ (("." ++ s₂).data <:+ s₁.data) ∧
      ¬ (("." ++ s₁).data <:+ ("." ++ s₂).data) ∧ ¬ (("." ++ s₂).data <:+ ("." ++ s₁).data))
    (h₁ : hasHostSuffix h L₁ = true) (h₂ : hasHostSuffix h L₂ = true) : False := by
  obtain ⟨s₁, hs₁, hm₁⟩ := List.any_eq_true.mp h₁
  obtain ⟨s₂, hs₂, hm₂⟩ := List.any_eq_true.mp h₂
  obtain ⟨hne, h12, h21, h12d, h21d⟩ := hinc s₁ hs₁ s₂ hs₂
  rcases Bool.or_eq_true_iff.mp hm₁ with he₁ | he₁ <;>
    rcases Bool.or_eq_true_iff.mp hm₂ with he₂ | he₂
  · exact hne (by
      have a := of_decide_eq_true he₁
      have b := of_decide_eq_true he₂
      rw [← a, ← b])
  · have a := of_decide_eq_true he₁
    have b := jsEndsWith_iff.mp he₂
    rw [a] at b
    exact h21 (by
      have := congrArg String.data a
      exact b)
  · have a := of_decide_eq_true he₂
    have b := jsEndsWith_iff.mp he₁
    rw [a] at b
    exact h12 b
  · have b₁ := jsEndsWith_iff.mp he₁
    have b₂ := jsEndsWith_iff.mp he₂
    rcases Nat.le_total ("." ++ s₁).data.length ("." ++ s₂).data.length with hl | hl
    · exact h12d (List.suffix_of_suffix_length_le b₁ b₂ hl)
    · exact h21d (List.suffix_of_suffix_length_le b₂ b₁ hl)

/-- C8: a URL whose hostname matches a recognized platform's suffix but
whose path does not match that platform's expected shape is classified
`unsupported` with the platform's specific reason, for every network
probe — the chain never falls through to the generic probe. -/
theorem c8_platform_wrong_path (probe : JsUrl → DetectResult) (u : JsUrl) :
    (isInstagramHost u.hostname = true → instagramMediaPathTest u.pathname = false →
      detectSourceByAdapters probe u =
        { type := .unsupported, finalUrl := u.href, reason := some igPathReason
          adapter := "instagram" }) ∧
    (isRutubeHost u.hostname = true → isRutubeVideoPath u.pathname = false →
      detectSourceByAdapters probe u =
        { type := .unsupported, finalUrl := u.href, reason := some rutubePathReason
          adapter := "rutube" }) ∧
    (isOkHost u.hostname = true → isOkVideoPath u.pathname = false →
      detectSourceByAdapters probe u =
        { type := .unsupported, finalUrl := u.href, reason := some okPathReason
          adapter := "ok" }) ∧
    (isVkHost u.hostname = true → isVkVideoPath u.pathname = false →
      detectSourceByAdapters probe u =
        { type := .unsupported, finalUrl := u.href, reason := some vkPathReason
          adapter := "vk" }) := by
  refine ⟨?_, ?_, ?_, ?_⟩
  · intro hig hpath
    have hyt : isYoutubeHost u.hostname = false := by
      by_contra hc
      exact hasHostSuffix_excl (by decide) (Bool.not_eq_false _ ▸ hc : isYoutubeHost u.hostname = true) hig
    simp [detectSourceByAdapters, List.findSome?, detectYoutubeSource, detectInstagramSource,
      hyt, hig, hpath]
  · intro hrt hpath
    have hyt : isYoutubeHost u.hostname = false := by
      by_contra hc
      exact hasHostSuffix_excl (by decide) (Bool.not_eq_false _ ▸ hc : isYoutubeHost u.hostname = true) hrt
    have hig : isInstagramHost u.hostname = false := by
      by_contra hc
      exact hasHostSuffix_excl (by decide) (Bool.not_eq_false _ ▸ hc : isInstagramHost u.hostname = true) hrt
    simp [detectSourceByAdapters, List.findSome?, detectYoutubeSource, detectInstagramSource,
      detectRutubeSource, hyt, hig, hrt, hpath]
  · intro hok hpath
    have hyt : isYoutubeHost u.hostname = false := by
      by_contra hc
      exact hasHostSuffix_excl (by decide) (Bool.not_eq_false _ ▸ hc : isYoutubeHost u.hostname = true) hok
    have hig : isInstagramHost u.hostname = false := by
      by_contra hc
      exact hasHostSuffix_excl (by decide) (Bool.not_eq_false _ ▸ hc : isInstagramHost u.hostname = true) hok
    have hrt : isRutubeHost u.hostname = false := by
      by_contra hc
      exact hasHostSuffix_excl (by decide) (Bool.not_eq_false _ ▸ hc : isRutubeHost u.hostname = true) hok
    simp [detectSourceByAdapters, List.findSome?, detectYoutubeSource, detectInstagramSource,
      detectRutubeSource, detectOkSource, hyt, hig, hrt, hok, hpath]
  · intro hvk hpath
    have hyt : isYoutubeHost u.hostname = false := by
      by_contra hc
      exact hasHostSuffix_excl (by decide) (Bool.not_eq_false _ ▸ hc : isYoutubeHost u.hostname = true) hvk
    have hig : isInstagramHost u.hostname = false := by
      by_contra hc
      exact hasHostSuffix_excl (by decide) (Bool.not_eq_false _ ▸ hc : isInstagramHost u.hostname = true) hvk
    have hrt : isRutubeHost u.hostname = false := by
      by_contra hc
      exact hasHostSuffix_excl (by decide) (Bool.not_eq_false _ ▸ hc : isRutubeHost u.hostname = true) hvk
    have hok : isOkHost u.hostname = false := by
      by_contra hc
      exact hasHostSuffix_excl (by decide) (Bool.not_eq_false _ ▸ hc : isOkHost u.hostname = true) hvk
    simp [detectSourceByAdapters, List.findSome?, detectYoutubeSource, detectInstagramSource,
      detectRutubeSource, detectOkSource, detectVkSource, hyt, hig, hrt, hok, hvk, hpath]

/-- Witness for C8: a RuTube channel URL (host matches, path shape does
not) is rejected with the RuTube-specific reason without probing. -/
theorem c8_platform_wrong_path_witness :
    detectSourceByAdapters wProbe
      { protocol := "https:", hostname := "rutube.ru", username := "", password := ""
        pathname := "/channel/123", href := "https://rutube.ru/channel/123" } =
      { type := .unsupported, finalUrl := "https://rutube.ru/channel/123"
        reason := some rutubePathReason, adapter := "rutube" } :=
  (c8_platform_wrong_path wProbe _).2.1 (by decide) (by decide)

end LinkCatcher

